import Mathlib

/-!
Verification development for the fistbump version-bump tool
(source: src/fistbump/fistbump.py).

The tool is a single CLI script.  We give a shallow embedding:

* the semver library surface used by the script (`semver.VersionInfo.parse`
  with and without `optional_minor_and_patch`, `str(VersionInfo)`,
  `bump_major` / `bump_minor` / `bump_patch` / `bump_prerelease`) is modelled
  over `List Char` / `String`, with machine-independent `Nat` components;
* external state (git queries, the file tree, the interactive answer) is a
  read-only snapshot record `Env`; the `subprocess.check_output` query
  helpers become pure reads of that snapshot;
* `main` becomes a pure function `mainRun : Env → RunResult` where
  `RunResult` records everything observable: printed lines, file writes,
  the external commands actually executed (the `subprocess.run` calls made
  through the script's `run_command`), the script's `ran_commands` log, the
  process exit code, whether an uncaught exception escaped, and whether the
  interactive prompt was reached (a ghost flag used to state properties
  about the confirmation step).

Python's `re` patterns here only ever face ASCII text; `\s` and `\d` are
modelled by their ASCII character sets.
-/

namespace Fistbump

/-- Decimal rendering worker: structural recursion on a fuel bound (one
unit per division by ten; fuel above the number itself always suffices). -/
def natToCharsAux : Nat → Nat → List Char
  | 0, _ => []
  | fuel + 1, n =>
    if n < 10 then [Char.ofNat (48 + n)]
    else natToCharsAux fuel (n / 10) ++ [Char.ofNat (48 + n % 10)]

/-- Decimal digit characters of a natural number, most significant first
(the rendering `"%d"` / `str(int)` uses). -/
def natToChars (n : Nat) : List Char :=
  natToCharsAux (n + 1) n

/-- Numeric value of a list of decimal digit characters (`int(...)`). -/
def digitsVal (ds : List Char) : Nat :=
  ds.foldl (fun a c => a * 10 + (c.toNat - 48)) 0

/-- The structured `semver.VersionInfo` value: major/minor/patch plus the
optional prerelease and build strings, exactly the fields the library
keeps. -/
structure VersionInfo where
  major : Nat
  minor : Nat
  patch : Nat
  prerelease : Option String
  build : Option String
deriving DecidableEq, Repr

/-- Characters of `str(VersionInfo)`:
`"%d.%d.%d" % (major, minor, patch)` followed by `"-%s" % prerelease` when
the prerelease string is truthy (non-empty) and `"+%s" % build` likewise. -/
def formatChars (v : VersionInfo) : List Char :=
  natToChars v.major ++ ('.' :: natToChars v.minor) ++ ('.' :: natToChars v.patch)
    ++ (match v.prerelease with
        | some p => if p.data = [] then [] else '-' :: p.data
        | none => [])
    ++ (match v.build with
        | some b => if b.data = [] then [] else '+' :: b.data
        | none => [])

/-- String form of `str(VersionInfo)`. -/
def VersionInfo.format (v : VersionInfo) : String :=
  ⟨formatChars v⟩

/-- One numeric component of the semver grammar, pattern `0|[1-9]\d*`
followed by a non-digit: the maximal digit run, rejected when empty or when
it has a redundant leading zero. -/
def parseNum (cs : List Char) : Option (Nat × List Char) :=
  let ds := cs.takeWhile Char.isDigit
  if ds.isEmpty then none
  else if 1 < ds.length ∧ ds.head? = some '0' then none
  else some (digitsVal ds, cs.dropWhile Char.isDigit)

/-- Identifier alphabet `[0-9a-zA-Z-]` of semver prerelease/build
identifiers. -/
def isIdChar (c : Char) : Bool :=
  c.isDigit || ('a' ≤ c && c ≤ 'z') || ('A' ≤ c && c ≤ 'Z') || c = '-'

/-- A valid prerelease identifier
(`0|[1-9]\d*|\d*[a-zA-Z-][0-9a-zA-Z-]*`): non-empty, and when it is all
digits it must not have a redundant leading zero. -/
def validPreId (cs : List Char) : Bool :=
  !cs.isEmpty &&
    (if cs.all Char.isDigit then !(decide (1 < cs.length) && cs.head? == some '0')
     else true)

/-- A valid build identifier (`[0-9a-zA-Z-]+`): any non-empty run. -/
def validBuildId (cs : List Char) : Bool :=
  !cs.isEmpty

/-- Identifier-list worker: structural recursion on a fuel bound (every
step past a dot consumes at least one character, so fuel above the input
length always suffices). -/
def parseDotIdsAux (valid : List Char → Bool) : Nat → List Char →
    Option (List (List Char) × List Char)
  | 0, _ => none
  | fuel + 1, cs =>
    let idc := cs.takeWhile isIdChar
    let rest := cs.dropWhile isIdChar
    if valid idc then
      if rest.head? = some '.' then
        match parseDotIdsAux valid fuel rest.tail with
        | some (ids, r) => some (idc :: ids, r)
        | none => none
      else some ([idc], rest)
    else none

/-- Dot-separated identifier list of a prerelease/build section: repeatedly
take the maximal `[0-9a-zA-Z-]` run, check it with `valid`, and continue
past a `'.'`. -/
def parseDotIds (valid : List Char → Bool) (cs : List Char) :
    Option (List (List Char) × List Char) :=
  parseDotIdsAux valid (cs.length + 1) cs

/-- Join identifier lists back with dots (the string the regex group
captures). -/
def joinDots : List (List Char) → List Char
  | [] => []
  | [i] => i
  | i :: is => i ++ ('.' :: joinDots is)

/-- The `(?:\.minor(?:\.patch)?)?` part of the grammar: minor and patch
components after the major, either of which may be missing only in
optional mode (defaulting to zero). -/
def parseMMP (optionalMinorPatch : Bool) (cs : List Char) : Option (Nat × Nat × List Char) :=
  if cs.head? = some '.' then
    match parseNum cs.tail with
    | none => none
    | some (mnr, r2) =>
      if r2.head? = some '.' then
        match parseNum r2.tail with
        | none => none
        | some (pat, r4) => some (mnr, pat, r4)
      else if optionalMinorPatch then some (mnr, 0, r2) else none
  else if optionalMinorPatch then some (0, 0, cs) else none

/-- The `(?:-prerelease)?` part: a `'-'` must be followed by a valid
dot-separated identifier list. -/
def parsePreSection (cs : List Char) : Option (Option (List (List Char)) × List Char) :=
  if cs.head? = some '-' then
    match parseDotIds validPreId cs.tail with
    | some (ids, r) => some (some ids, r)
    | none => none
  else some (none, cs)

/-- The `(?:\+build)?` part. -/
def parseBldSection (cs : List Char) : Option (Option (List (List Char)) × List Char) :=
  if cs.head? = some '+' then
    match parseDotIds validBuildId cs.tail with
    | some (ids, r) => some (some ids, r)
    | none => none
  else some (none, cs)

/-- The anchored semver regex, as used by `semver.VersionInfo.parse`:
`major(.minor(.patch)?)?(-prerelease)?(+build)?` when
`optionalMinorPatch = true`, and the strict three-component form otherwise.
Missing minor/patch default to zero. -/
def parseCore (optionalMinorPatch : Bool) (cs : List Char) : Option VersionInfo :=
  match parseNum cs with
  | none => none
  | some (maj, r1) =>
    match parseMMP optionalMinorPatch r1 with
    | none => none
    | some (mnr, pat, r4) =>
      match parsePreSection r4 with
      | none => none
      | some (pre, r6) =>
        match parseBldSection r6 with
        | none => none
        | some (bld, r8) =>
          if r8.isEmpty then
            some ⟨maj, mnr, pat,
              pre.map (fun ids => (⟨joinDots ids⟩ : String)),
              bld.map (fun ids => (⟨joinDots ids⟩ : String))⟩
          else none

/-- Source `parse_version`: strip a leading `"v"` as the prefix, parse the
remainder with `optional_minor_and_patch=True`; `ValueError` becomes
`none`. -/
def parse_version (tag : String) : Option (VersionInfo × String) :=
  if tag.data.head? = some 'v' then
    (parseCore true tag.data.tail).map (fun v => (v, "v"))
  else
    (parseCore true tag.data).map (fun v => (v, ""))

/-- Source `is_version_parseable`. -/
def is_version_parseable (tag : String) : Bool :=
  (parse_version tag).isSome

/-- Plain `semver.VersionInfo.parse` (strict grammar, no prefix stripping),
used on the `--set-version` value. -/
def versionInfoParseStrict (s : String) : Option VersionInfo :=
  parseCore false s.data

/-- `VersionInfo.bump_minor`: minor + 1, patch reset, prerelease and build
dropped. -/
def bump_minor (v : VersionInfo) : VersionInfo :=
  ⟨v.major, v.minor + 1, 0, none, none⟩

/-- `VersionInfo.bump_major`: major + 1, the rest reset/dropped. -/
def bump_major (v : VersionInfo) : VersionInfo :=
  ⟨v.major + 1, 0, 0, none, none⟩

/-- `VersionInfo.bump_patch`: patch + 1, prerelease and build dropped. -/
def bump_patch (v : VersionInfo) : VersionInfo :=
  ⟨v.major, v.minor, v.patch + 1, none, none⟩

/-- semver's `_increment_string`: increment the trailing run of digits when
there is one (`(?:[^\d]|^)(\d+)$`), leaving the string unchanged
otherwise. -/
def incrementString (s : String) : String :=
  let rev := s.data.reverse
  let ds := rev.takeWhile Char.isDigit
  if ds.isEmpty then s
  else ⟨(rev.dropWhile Char.isDigit).reverse ++ natToChars (digitsVal ds.reverse + 1)⟩

/-- `VersionInfo.bump_prerelease(token)`: start from the current prerelease
if any, else from `"0"` / `"rc.0"` / `token + ".0"` depending on the token,
then increment its trailing number; build is dropped. -/
def bump_prerelease (v : VersionInfo) (token : Option String) : VersionInfo :=
  let pre :=
    match v.prerelease with
    | some p => p
    | none =>
      match token with
      | some "" => "0"
      | none => "rc.0"
      | some t => t ++ ".0"
  ⟨v.major, v.minor, v.patch, some (incrementString pre), none⟩

/-! ## Program state model

The script only ever reads the repository and the file tree through
discrete queries; we model the answers those queries would give as a
read-only snapshot. -/

/-- Parsed command-line flags (argparse result). `set_version` is `none`
when the option is absent; argparse stores the raw string otherwise. -/
structure Args where
  minor : Bool
  major : Bool
  patch : Bool
  set_version : Option String
  version : Bool
  pre : Bool
  force : Bool
  dry : Bool
  check : Bool
deriving DecidableEq, Repr

/-- Snapshot of the git queries the script makes:
`describeTags` is the stripped output of `git describe --tags` (`none` when
the command fails, e.g. no tags); `latestTag` the stripped output of
`git describe --tags --abbrev=0`; `clean` whether `git diff --quiet`
succeeds; `headTags` the line-split output of `git tag --points-at HEAD`;
`trackedPaths` the set of paths for which `git ls-files --error-unmatch`
succeeds. -/
structure GitState where
  describeTags : Option String
  latestTag : Option String
  clean : Bool
  headTags : List String
  trackedPaths : List String
deriving DecidableEq, Repr

/-- One hit of the `Path().glob("**/version.txt")` scan: the file's path
and its parent directory's path. -/
structure VersionTxtFile where
  path : String
  parent : String
deriving DecidableEq, Repr

/-- Snapshot of the file tree: the `**/version.txt` glob results in glob
order, and the content of a root `pyproject.toml` when it exists. -/
structure FileSystem where
  versionTxtFiles : List VersionTxtFile
  pyproject : Option String
deriving DecidableEq, Repr

/-- Full input of one run: flags, repository snapshot, file tree, the line
the user types at the confirmation prompt, and the tool's own version
constant (the `version.txt` next to the script). -/
structure Env where
  args : Args
  git : GitState
  fs : FileSystem
  userInput : String
  selfVersion : String
deriving DecidableEq, Repr

/-- Everything observable about one run: printed lines in order, file
writes performed, external commands actually executed through
`run_command` (`subprocess.run`), the script's `ran_commands` log, the
process exit code, whether an uncaught exception escaped, and whether the
confirmation prompt was reached (ghost flag). -/
structure RunResult where
  output : List String
  writes : List (String × String)
  executed : List (List String)
  ranCommands : List String
  exitCode : Nat
  crashed : Bool
  promptShown : Bool
deriving DecidableEq, Repr

/-- Source `git_check_tagged`: `git describe --tags` succeeds and its
output contains no `"-"` (substring test of a one-character string =
character membership). -/
def git_check_tagged (git : GitState) : Bool :=
  match git.describeTags with
  | some got => !(got.data.contains '-')
  | none => false

/-- Source `git_find_tag`: `git describe --tags --abbrev=0`, `none` on
failure. -/
def git_find_tag (git : GitState) : Option String :=
  git.latestTag

/-- Source `git_get_head_tags`: the split output of
`git tag --points-at HEAD` (empty list on command failure). -/
def git_get_head_tags (git : GitState) : List String :=
  git.headTags

/-- Source `is_working_directory_clean`: `git diff --quiet` succeeds. -/
def is_working_directory_clean (git : GitState) : Bool :=
  git.clean

/-- Source `is_path_tracked_by_git`. -/
def is_path_tracked_by_git (git : GitState) (file : String) : Bool :=
  git.trackedPaths.contains file

/-! ## The pyproject.toml rewrite

`re.sub(r"version\s*=\s*\"\d+.*?\"", f'version = "{nv}"', cont)`:
scan left to right; at each position try to match the literal `version`,
optional whitespace, `=`, optional whitespace, a double quote, a digit,
then (lazily) anything up to the next quote on the same line; replace each
non-overlapping match. -/

/-- ASCII white space, the characters `\s` matches in this file's ASCII
setting. -/
def isWsChar (c : Char) : Bool :=
  c = ' ' || c = '\t' || c = '\n' || c = '\r' || c = '\x0b' || c = '\x0c'

/-- Consume an exact literal; `none` when the input does not start with
it. -/
def dropLit : List Char → List Char → Option (List Char)
  | [], cs => some cs
  | _ :: _, [] => none
  | p :: ps, c :: cs => if c = p then dropLit ps cs else none

/-- After the opening quote and first digit: `.*?\"` consumes up to the
first following `"`, failing at a newline or the end of input (`.` does
not match a newline). -/
def scanToQuote : List Char → Option (List Char)
  | [] => none
  | c :: cs => if c = '"' then some cs else if c = '\n' then none else scanToQuote cs

/-- One attempted match of the version-assignment pattern starting exactly
at the head of the input; returns the rest of the input after the match. -/
def matchVersionAssign (cs : List Char) : Option (List Char) :=
  match dropLit "version".data cs with
  | none => none
  | some r1 =>
    match r1.dropWhile isWsChar with
    | '=' :: r3 =>
      match r3.dropWhile isWsChar with
      | '"' :: d :: r5 => if d.isDigit then scanToQuote r5 else none
      | _ => none
    | _ => none

/-- `re.sub` scanning loop, with fuel (one unit per input character; a
successful match always consumes at least one character, so fuel bounded
below by the input length never runs out). -/
def subVersionAssignAux (repl : List Char) : Nat → List Char → List Char
  | 0, cs => cs
  | _ + 1, [] => []
  | fuel + 1, c :: cs =>
    match matchVersionAssign (c :: cs) with
    | some rest => repl ++ subVersionAssignAux repl fuel rest
    | none => c :: subVersionAssignAux repl fuel cs

/-- The full text transform applied to `pyproject.toml`. -/
def rewrite_pyproject (cont : String) (new_version : String) : String :=
  ⟨subVersionAssignAux ("version = \"".data ++ new_version.data ++ ['"'])
    cont.data.length cont.data⟩

/-- Source `collect_file_updates`: every globbed `version.txt` whose parent
directory is tracked maps to the bare new version string; then the root
`pyproject.toml`, rewritten, is added when the rewrite changed it.
(Python dict insertion order = glob order, manifest last.) -/
def collect_file_updates (git : GitState) (fs : FileSystem) (new_version : String) :
    List (String × String) :=
  (fs.versionTxtFiles.filter (fun f => git.trackedPaths.contains f.parent)).map
      (fun f => (f.path, new_version))
    ++ match fs.pyproject with
       | none => []
       | some cont =>
         let new_cont := rewrite_pyproject cont new_version
         if new_cont ≠ cont then [("pyproject.toml", new_cont)] else []

/-! ## The main control flow -/

/-- Truthiness of `args.set_version` (`elif args.set_version:`): present
and non-empty. -/
def setVersionRequested (args : Args) : Bool :=
  match args.set_version with
  | some s => s ≠ ""
  | none => false

/-- Result of the bump-selection `elif` chain. -/
inductive BumpOutcome
  | noBump
  | badSetVersion
  | ver (v : VersionInfo)
deriving DecidableEq, Repr

/-- The `elif` chain of lines 159-173: the first requested bump wins;
`--set-version` parses strictly and a parse failure raises (modelled as
`badSetVersion`); no flag at all is a no-op. -/
def computeNewVersion (args : Args) (parsed_version : VersionInfo) : BumpOutcome :=
  if args.minor then .ver (bump_minor parsed_version)
  else if args.major then .ver (bump_major parsed_version)
  else if args.patch then .ver (bump_patch parsed_version)
  else if setVersionRequested args then
    match versionInfoParseStrict (args.set_version.getD "") with
    | some v => .ver v
    | none => .badSetVersion
  else if args.pre then .ver (bump_prerelease (bump_minor parsed_version) (some "dev"))
  else .noBump

/-- `" ".join(cmd)`. -/
def joinCmd (cmd : List String) : String :=
  String.intercalate " " cmd

/-- Accumulator for the apply loop (output so far, writes, executed
commands, the `ran_commands` log, and the `commit_needed` flag). -/
structure ApplyAcc where
  out : List String
  writes : List (String × String)
  exec : List (List String)
  ran : List String
  commitNeeded : Bool
deriving DecidableEq, Repr

/-- `run_command(cmd, check_dry=True)`: under `--dry` print a `DRY RUN`
line and do nothing; otherwise execute.  Note the source appends to
`ran_commands` only when `check_dry` is false, so these calls are never
logged. -/
def runCmdCheckDry (args : Args) (acc : ApplyAcc) (cmd : List String) : ApplyAcc :=
  if args.dry then { acc with out := acc.out ++ ["DRY RUN: " ++ joinCmd cmd] }
  else { acc with exec := acc.exec ++ [cmd] }

/-- One iteration of the update loop (lines 223-234): print
`Updating <file>`; when not a dry run, write the file, and either stage it
(tracked and not `--pre`: print and run `git add`, set `commit_needed`) or
print the skip notice. -/
def applyStep (args : Args) (git : GitState) (acc : ApplyAcc) (u : String × String) :
    ApplyAcc :=
  let acc1 := { acc with out := acc.out ++ ["Updating " ++ u.1] }
  if args.dry then acc1
  else
    let acc2 := { acc1 with writes := acc1.writes ++ [(u.1, u.2)] }
    if is_path_tracked_by_git git u.1 && !args.pre then
      { acc2 with
        out := acc2.out ++ ["git add " ++ u.1],
        ran := acc2.ran ++ ["git add " ++ u.1],
        exec := acc2.exec ++ [["git", "add", u.1]],
        commitNeeded := true }
    else
      { acc2 with out := acc2.out ++ ["File " ++ u.1 ++ " is not tracked by git, skipping add"] }

/-- Lines 222-248: run the update loop, then the conditional commit, then
the tag (or the `--pre` notice), then print the final report. -/
def applyPhase (args : Args) (git : GitState) (updates : List (String × String))
    (nv : VersionInfo) (tagStr : String) (out : List String)
    (exec : List (List String)) (ran : List String) : RunResult :=
  let acc1 := updates.foldl (applyStep args git) ⟨out, [], exec, ran, false⟩
  let acc2 :=
    if acc1.commitNeeded then
      runCmdCheckDry args acc1 ["git", "commit", "-m", "Bump version to " ++ VersionInfo.format nv]
    else acc1
  let acc3 :=
    if !args.pre then runCmdCheckDry args acc2 ["git", "tag", tagStr]
    else { acc2 with out := acc2.out ++ ["Pre-release version, not tagging"] }
  { output := acc3.out ++ ["All done!", "Commands ran:"] ++ acc3.ran,
    writes := acc3.writes, executed := acc3.exec, ranCommands := acc3.ran,
    exitCode := 0, crashed := false, promptShown := true }

/-- Lines 201-221: the head-tag guard, the pending-update listing, and the
confirmation prompt. -/
def confirmPhase (env : Env) (nv : VersionInfo) (tagStr : String)
    (out : List String) (exec : List (List String)) (ran : List String) : RunResult :=
  let args := env.args
  let git := env.git
  if !args.force && (git_get_head_tags git).any is_version_parseable then
    { output := out ++ ["Current HEAD is tagged with a version tag(s). Refusing to proceed without --force: "
        ++ String.intercalate "," (git_get_head_tags git)],
      writes := [], executed := exec, ranCommands := ran,
      exitCode := 0, crashed := false, promptShown := false }
  else
    let updates := collect_file_updates git env.fs (VersionInfo.format nv)
    let out2 := out ++ (updates.map (fun u => ["######### File: " ++ u.1, u.2, ""])).flatten
    let prompt :=
      if !args.pre then "Proceed with changes and tagging? [y/N] "
      else "Tagging won't be done because of --pre. Proceed with changes? [y/N] "
    let out3 := out2 ++ [prompt]
    if env.userInput = "y" then applyPhase args git updates nv tagStr out3 exec ran
    else
      { output := out3 ++ ["Aborted by user request"], writes := [], executed := exec,
        ranCommands := ran, exitCode := 0, crashed := false, promptShown := true }

/-- Lines 175-199: announce the new version/tag, then the dirty-tree
guard (`git status -s` runs — and is logged — whenever the tree is dirty;
`--pre` proceeds with a warning; otherwise only `--force` proceeds). -/
def bumpPhase (env : Env) (pfx : String) (nv : VersionInfo) (out0 : List String) :
    RunResult :=
  let args := env.args
  let git := env.git
  let tagStr := pfx ++ VersionInfo.format nv
  let out1 := out0 ++ ["New version: " ++ VersionInfo.format nv]
    ++ (if VersionInfo.format nv ≠ tagStr then ["New tag: " ++ tagStr] else [])
  if !(is_working_directory_clean git) then
    let exec1 := [["git", "status", "-s"]]
    let ran1 := ["git status -s"]
    if args.pre then
      confirmPhase env nv tagStr
        (out1 ++ ["Working directory is not clean, but proceeding because of --pre"]) exec1 ran1
    else if !args.force then
      { output := out1 ++ ["Working directory is not clean, commit changes before proceeding or use the --force"],
        writes := [], executed := exec1, ranCommands := ran1,
        exitCode := 0, crashed := false, promptShown := false }
    else confirmPhase env nv tagStr out1 exec1 ran1
  else confirmPhase env nv tagStr out1 [] []

/-- Source `main` as a pure function of the input snapshot. -/
def mainRun (env : Env) : RunResult :=
  let args := env.args
  if args.version then
    { output := ["fistbump " ++ env.selfVersion], writes := [], executed := [],
      ranCommands := [], exitCode := 0, crashed := false, promptShown := false }
  else if args.check then
    if !(is_working_directory_clean env.git) then
      { output := ["Working directory is not clean, commit changes before proceeding"],
        writes := [], executed := [], ranCommands := [], exitCode := 2,
        crashed := false, promptShown := false }
    else if !(git_check_tagged env.git) then
      { output := ["Current version is not tagged, need to run 'fistbump' first"],
        writes := [], executed := [], ranCommands := [], exitCode := 2,
        crashed := false, promptShown := false }
    else
      { output := [], writes := [], executed := [], ranCommands := [], exitCode := 0,
        crashed := false, promptShown := false }
  else
    match git_find_tag env.git with
    | none =>
      { output := ["No tags found"], writes := [], executed := [], ranCommands := [],
        exitCode := 0, crashed := false, promptShown := false }
    | some current_tag =>
      match parse_version current_tag with
      | none =>
        { output := [], writes := [], executed := [], ranCommands := [], exitCode := 1,
          crashed := true, promptShown := false }
      | some (parsed_version, pfx) =>
        let out0 := ["Current version: " ++ pfx ++ VersionInfo.format parsed_version]
        match computeNewVersion args parsed_version with
        | .noBump =>
          { output := out0 ++ ["No version bump requested, consider --major, --minor, --patch, --set-version or --pre"],
            writes := [], executed := [], ranCommands := [], exitCode := 0,
            crashed := false, promptShown := false }
        | .badSetVersion =>
          { output := out0, writes := [], executed := [], ranCommands := [], exitCode := 1,
            crashed := true, promptShown := false }
        | .ver nv => bumpPhase env pfx nv out0

/-- Commands that mutate repository state (stage, commit, tag); the
queries and `git status` are read-only. -/
def isMutating (cmd : List String) : Bool :=
  match cmd with
  | "git" :: "add" :: _ => true
  | "git" :: "commit" :: _ => true
  | "git" :: "tag" :: _ => true
  | _ => false

/-! ## Vocabulary for the round-trip claim

A "valid semantic version string, optionally prefixed with a literal `v`
and optionally missing the minor and/or patch components" is exactly a
string assembled from a major number, an optional minor (with optional
patch), and optional prerelease/build identifier lists that satisfy the
semver identifier grammar.  `mkVersionChars` assembles such a string; the
claim's "normalized form" is the same assembly with the missing components
rendered as zero. -/

/-- Head of a list fails predicate `p` (vacuously for `[]`). -/
def headNotP (p : Char → Bool) (cs : List Char) : Prop :=
  ∀ c, cs.head? = some c → p c = false

/-- The minor component an optional `(minor, patch?)` pair denotes
(defaulting to zero). -/
def mpMinor : Option (Nat × Option Nat) → Nat
  | none => 0
  | some (m, _) => m

/-- The patch component an optional `(minor, patch?)` pair denotes
(defaulting to zero). -/
def mpPatch : Option (Nat × Option Nat) → Nat
  | some (_, some p) => p
  | _ => 0

/-- A non-empty identifier list whose members are over the identifier
alphabet and individually accepted by `valid`. -/
def validIdList (valid : List Char → Bool) (ids : List (List Char)) : Bool :=
  !ids.isEmpty && ids.all (fun i => i.all isIdChar && valid i)

/-- `validIdList` lifted to an optional section. -/
def validIdsOpt (valid : List Char → Bool) : Option (List (List Char)) → Bool
  | none => true
  | some l => validIdList valid l

/-- Characters of the optional `.minor(.patch)?` part. -/
def mpChars : Option (Nat × Option Nat) → List Char
  | none => []
  | some (mnr, none) => '.' :: natToChars mnr
  | some (mnr, some pat) => '.' :: natToChars mnr ++ ('.' :: natToChars pat)

/-- Characters of an optional marked section (`-prerelease` / `+build`). -/
def sectChars (mark : Char) : Option (List (List Char)) → List Char
  | none => []
  | some ids => mark :: joinDots ids

/-- Assemble a version string from its components: optional `v` prefix,
major, optional `.minor(.patch)?`, optional `-prerelease`, optional
`+build`. -/
def mkVersionChars (pfx : Bool) (maj : Nat) (mp : Option (Nat × Option Nat))
    (pre bld : Option (List (List Char))) : List Char :=
  (if pfx then ['v'] else []) ++ natToChars maj
    ++ mpChars mp ++ sectChars '-' pre ++ sectChars '+' bld

/-! ## Supporting lemmas: decimal rendering and the numeric component -/

theorem natToCharsAux_congr :
    ∀ n f1 f2, n < f1 → n < f2 → natToCharsAux f1 n = natToCharsAux f2 n := by
  intro n
  induction n using Nat.strong_induction_on with
  | _ n ih =>
    intro f1 f2 h1 h2
    match f1, f2 with
    | fa + 1, fb + 1 =>
      by_cases h10 : n < 10
      · simp [natToCharsAux, h10]
      · simp only [natToCharsAux, h10, if_false]
        rw [ih (n / 10) (Nat.div_lt_self (by omega) (by omega)) fa fb (by omega) (by omega)]

theorem natToChars_eq_lt {n : Nat} (h : n < 10) :
    natToChars n = [Char.ofNat (48 + n)] := by
  simp [natToChars, natToCharsAux, h]

theorem natToChars_eq_ge {n : Nat} (h : ¬ n < 10) :
    natToChars n = natToChars (n / 10) ++ [Char.ofNat (48 + n % 10)] := by
  show natToCharsAux (n + 1) n = natToCharsAux (n / 10 + 1) (n / 10) ++ _
  have e1 : natToCharsAux (n + 1) n
      = natToCharsAux n (n / 10) ++ [Char.ofNat (48 + n % 10)] := by
    simp [natToCharsAux, h]
  rw [e1, natToCharsAux_congr (n / 10) n (n / 10 + 1)
    (Nat.div_lt_self (by omega) (by omega)) (by omega)]

theorem charOfNat_toNat {d : Nat} (h : d < 10) : (Char.ofNat (48 + d)).toNat = 48 + d := by
  interval_cases d <;> decide

theorem charOfNat_isDigit {d : Nat} (h : d < 10) : (Char.ofNat (48 + d)).isDigit = true := by
  interval_cases d <;> decide

theorem charOfNat_ne_zeroChar {d : Nat} (h1 : 0 < d) (h2 : d < 10) :
    Char.ofNat (48 + d) ≠ '0' := by
  interval_cases d <;> decide

theorem natToChars_ne_nil (n : Nat) : natToChars n ≠ [] := by
  by_cases h : n < 10
  · rw [natToChars_eq_lt h]; simp
  · rw [natToChars_eq_ge h]; simp

theorem natToChars_all_digit (n : Nat) : ∀ c ∈ natToChars n, c.isDigit = true := by
  induction n using Nat.strong_induction_on with
  | _ n ih =>
    by_cases h : n < 10
    · rw [natToChars_eq_lt h]
      intro c hc
      rw [List.mem_singleton] at hc
      subst hc
      exact charOfNat_isDigit h
    · rw [natToChars_eq_ge h]
      intro c hc
      rw [List.mem_append] at hc
      rcases hc with hc | hc
      · exact ih (n / 10) (Nat.div_lt_self (by omega) (by omega)) c hc
      · rw [List.mem_singleton] at hc
        subst hc
        exact charOfNat_isDigit (Nat.mod_lt _ (by omega))

theorem natToChars_head_ne_zero :
    ∀ n, 0 < n → ∀ c, (natToChars n).head? = some c → c ≠ '0' := by
  intro n
  induction n using Nat.strong_induction_on with
  | _ n ih =>
    intro hn c hc
    by_cases h : n < 10
    · rw [natToChars_eq_lt h] at hc
      simp only [List.head?_cons, Option.some.injEq] at hc
      subst hc
      exact charOfNat_ne_zeroChar hn h
    · rw [natToChars_eq_ge h] at hc
      obtain ⟨a, t, hat⟩ := List.exists_cons_of_ne_nil (natToChars_ne_nil (n / 10))
      rw [hat] at hc
      simp only [List.cons_append, List.head?_cons, Option.some.injEq] at hc
      subst hc
      exact ih (n / 10) (Nat.div_lt_self (by omega) (by omega)) (by omega)
        _ (by rw [hat]; rfl)

theorem digitsVal_append_singleton (ds : List Char) (c : Char) :
    digitsVal (ds ++ [c]) = digitsVal ds * 10 + (c.toNat - 48) := by
  simp [digitsVal, List.foldl_append]

theorem digitsVal_natToChars : ∀ n, digitsVal (natToChars n) = n := by
  intro n
  induction n using Nat.strong_induction_on with
  | _ n ih =>
    by_cases h : n < 10
    · rw [natToChars_eq_lt h]
      have h2 := charOfNat_toNat h
      simp [digitsVal, h2]
    · rw [natToChars_eq_ge h, digitsVal_append_singleton,
        ih (n / 10) (Nat.div_lt_self (by omega) (by omega)),
        charOfNat_toNat (Nat.mod_lt _ (by omega))]
      omega

theorem takeWhile_append_all {p : Char → Bool} {xs ys : List Char}
    (h1 : ∀ c ∈ xs, p c = true) (h2 : headNotP p ys) :
    (xs ++ ys).takeWhile p = xs ∧ (xs ++ ys).dropWhile p = ys := by
  induction xs with
  | nil =>
    simp only [List.nil_append]
    cases ys with
    | nil => simp
    | cons y t =>
      have hy := h2 y rfl
      exact ⟨by simp [List.takeWhile_cons, hy], by simp [List.dropWhile_cons, hy]⟩
  | cons a t ih =>
    have ha := h1 a (List.mem_cons_self a t)
    obtain ⟨iht, ihd⟩ := ih (fun c hc => h1 c (List.mem_cons_of_mem a hc))
    exact ⟨by simp [List.takeWhile_cons, ha, iht],
      by simp [List.dropWhile_cons, ha, ihd]⟩

theorem parseNum_complete (n : Nat) (rest : List Char)
    (hrest : headNotP Char.isDigit rest) :
    parseNum (natToChars n ++ rest) = some (n, rest) := by
  obtain ⟨ht, hd⟩ := takeWhile_append_all (natToChars_all_digit n) hrest
  have hne : (natToChars n).isEmpty = false := by
    cases hx : natToChars n with
    | nil => exact absurd hx (natToChars_ne_nil n)
    | cons a t => rfl
  have hlead : ¬(1 < (natToChars n).length ∧ (natToChars n).head? = some '0') := by
    rintro ⟨hlen, hhd⟩
    by_cases h : n < 10
    · rw [natToChars_eq_lt h] at hlen
      simp at hlen
    · exact natToChars_head_ne_zero n (by omega) '0' hhd rfl
  simp only [parseNum, ht, hd, hne, Bool.false_eq_true, if_false,
    if_neg hlead, digitsVal_natToChars]

/-! ## Supporting lemmas: identifier sections -/

theorem joinDots_cons_cons (i j : List Char) (tl : List (List Char)) :
    joinDots (i :: j :: tl) = i ++ ('.' :: joinDots (j :: tl)) := rfl

theorem length_dropWhile_le_self (p : Char → Bool) (l : List Char) :
    (l.dropWhile p).length ≤ l.length := by
  induction l with
  | nil => simp [List.dropWhile]
  | cons a t ih => by_cases hp : p a <;> simp [List.dropWhile, hp] <;> omega

theorem parseDotIdsAux_congr (valid : List Char → Bool) :
    ∀ f1 f2 cs, cs.length < f1 → cs.length < f2 →
      parseDotIdsAux valid f1 cs = parseDotIdsAux valid f2 cs := by
  intro f1
  induction f1 with
  | zero => intro f2 cs h1 _; omega
  | succ fa ih =>
    intro f2 cs h1 h2
    match f2 with
    | fb + 1 =>
      simp only [parseDotIdsAux]
      by_cases hv : valid (cs.takeWhile isIdChar)
      · simp only [hv, if_true]
        by_cases hdot : (cs.dropWhile isIdChar).head? = some '.'
        · rw [if_pos hdot, if_pos hdot]
          have ha : (cs.dropWhile isIdChar).length ≤ cs.length :=
            length_dropWhile_le_self isIdChar cs
          have hb : (cs.dropWhile isIdChar).length ≠ 0 := by
            intro h0
            rw [List.length_eq_zero] at h0
            rw [h0] at hdot
            exact Option.noConfusion hdot
          have hc : (cs.dropWhile isIdChar).tail.length
              = (cs.dropWhile isIdChar).length - 1 := List.length_tail _
          rw [ih fb _ (by omega) (by omega)]
        · rw [if_neg hdot, if_neg hdot]
      · simp [hv]

theorem parseDotIds_eq (valid : List Char → Bool) (cs : List Char) :
    parseDotIds valid cs =
      (if valid (cs.takeWhile isIdChar) then
        if (cs.dropWhile isIdChar).head? = some '.' then
          match parseDotIds valid (cs.dropWhile isIdChar).tail with
          | some (ids, r) => some (cs.takeWhile isIdChar :: ids, r)
          | none => none
        else some ([cs.takeWhile isIdChar], cs.dropWhile isIdChar)
      else none) := by
  show parseDotIdsAux valid (cs.length + 1) cs = _
  simp only [parseDotIdsAux]
  by_cases hv : valid (cs.takeWhile isIdChar)
  · simp only [hv, if_true]
    by_cases hdot : (cs.dropWhile isIdChar).head? = some '.'
    · rw [if_pos hdot, if_pos hdot]
      have ha : (cs.dropWhile isIdChar).length ≤ cs.length :=
        length_dropWhile_le_self isIdChar cs
      have hb : (cs.dropWhile isIdChar).length ≠ 0 := by
        intro h0
        rw [List.length_eq_zero] at h0
        rw [h0] at hdot
        exact Option.noConfusion hdot
      have hc : (cs.dropWhile isIdChar).tail.length
          = (cs.dropWhile isIdChar).length - 1 := List.length_tail _
      rw [show parseDotIdsAux valid cs.length (cs.dropWhile isIdChar).tail
          = parseDotIds valid (cs.dropWhile isIdChar).tail from
        parseDotIdsAux_congr valid cs.length _ _ (by omega) (by omega)]
    · rw [if_neg hdot, if_neg hdot]
  · simp [hv]

theorem parseDotIds_complete (valid : List Char → Bool) :
    ∀ (ids : List (List Char)) (rest : List Char),
      ids ≠ [] →
      (∀ i ∈ ids, (∀ c ∈ i, isIdChar c = true) ∧ valid i = true) →
      headNotP isIdChar rest → rest.head? ≠ some '.' →
      parseDotIds valid (joinDots ids ++ rest) = some (ids, rest) := by
  intro ids
  induction ids with
  | nil => intro rest h; exact absurd rfl h
  | cons i tl ih =>
    intro rest _ hall hrest hdot
    obtain ⟨hic, hiv⟩ := hall i (List.mem_cons_self _ _)
    cases tl with
    | nil =>
      obtain ⟨ht, hd⟩ := takeWhile_append_all hic hrest
      rw [show joinDots [i] = i from rfl]
      rw [parseDotIds_eq]
      rw [ht, hd]
      rw [if_pos hiv, if_neg hdot]
    | cons j tl2 =>
      have hjoin : joinDots (i :: j :: tl2) ++ rest
          = i ++ ('.' :: (joinDots (j :: tl2) ++ rest)) := by
        rw [joinDots_cons_cons]
        simp [List.append_assoc]
      have hdotrest : headNotP isIdChar ('.' :: (joinDots (j :: tl2) ++ rest)) := by
        intro c hcc
        simp only [List.head?_cons, Option.some.injEq] at hcc
        subst hcc
        decide
      obtain ⟨ht, hd⟩ := takeWhile_append_all hic hdotrest
      rw [hjoin, parseDotIds_eq]
      rw [ht, hd]
      rw [if_pos hiv]
      simp only [List.head?_cons, List.tail_cons]
      rw [if_pos trivial]
      rw [ih rest (by simp) (fun x hx => hall x (List.mem_cons_of_mem _ hx)) hrest hdot]

theorem validPreId_ne_nil {i : List Char} (h : validPreId i = true) : i ≠ [] := by
  intro hnil
  subst hnil
  simp [validPreId] at h

theorem validBuildId_ne_nil {i : List Char} (h : validBuildId i = true) : i ≠ [] := by
  intro hnil
  subst hnil
  simp [validBuildId] at h

theorem joinDots_ne_nil {ids : List (List Char)} (hne : ids ≠ [])
    (hhd : ∀ i ∈ ids, i ≠ []) : joinDots ids ≠ [] := by
  cases ids with
  | nil => exact absurd rfl hne
  | cons i tl =>
    cases tl with
    | nil => exact hhd i (List.mem_cons_self _ _)
    | cons j tl2 =>
      rw [joinDots_cons_cons]
      cases i with
      | nil => simp
      | cons a t => simp

theorem validIdList_unpack {valid : List Char → Bool} {ids : List (List Char)}
    (h : validIdList valid ids = true) :
    ids ≠ [] ∧ ∀ i ∈ ids, (∀ c ∈ i, isIdChar c = true) ∧ valid i = true := by
  simp only [validIdList, Bool.and_eq_true, List.all_eq_true] at h
  obtain ⟨h1, h2⟩ := h
  constructor
  · intro hnil
    subst hnil
    simp at h1
  · intro i hi
    exact h2 i hi

theorem parseBldSection_complete (bld : Option (List (List Char)))
    (hbld : validIdsOpt validBuildId bld = true) :
    parseBldSection (sectChars '+' bld) = some (bld, []) := by
  cases bld with
  | none => rfl
  | some ids =>
    obtain ⟨hne, hall⟩ := validIdList_unpack hbld
    simp only [sectChars, parseBldSection, List.head?_cons, Option.some.injEq, if_pos rfl,
      List.tail_cons]
    rw [← List.append_nil (joinDots ids),
      parseDotIds_complete validBuildId ids [] hne hall
        (fun c hc => Option.noConfusion hc) (by simp)]
    simp

theorem parsePreSection_complete (pre bld : Option (List (List Char)))
    (hpre : validIdsOpt validPreId pre = true) :
    parsePreSection (sectChars '-' pre ++ sectChars '+' bld)
      = some (pre, sectChars '+' bld) := by
  cases pre with
  | none =>
    have h : (sectChars '+' bld).head? ≠ some '-' := by
      cases bld with
      | none => simp [sectChars]
      | some ids => simp [sectChars]
    have e1 : sectChars '-' (none : Option (List (List Char))) = [] := rfl
    rw [e1, List.nil_append]
    simp only [parsePreSection, if_neg h]
  | some ids =>
    obtain ⟨hne, hall⟩ := validIdList_unpack hpre
    have hrest : headNotP isIdChar (sectChars '+' bld) := by
      intro c hc
      cases bld with
      | none => exact Option.noConfusion hc
      | some bids =>
        simp only [sectChars, List.head?_cons, Option.some.injEq] at hc
        subst hc
        decide
    have hdot : (sectChars '+' bld).head? ≠ some '.' := by
      cases bld with
      | none => simp [sectChars]
      | some bids => simp [sectChars]
    have e1 : sectChars '-' (some ids) = '-' :: joinDots ids := rfl
    rw [e1, List.cons_append]
    simp only [parsePreSection, List.head?_cons, Option.some.injEq, if_pos rfl,
      List.tail_cons]
    rw [parseDotIds_complete validPreId ids _ hne hall hrest hdot]
    simp

/-! ## Supporting lemmas: number components and the full grammar -/

theorem parseMMP_complete (mp : Option (Nat × Option Nat)) (rest : List Char)
    (hrest : headNotP Char.isDigit rest) (hdot : rest.head? ≠ some '.') :
    parseMMP true (mpChars mp ++ rest) = some (mpMinor mp, mpPatch mp, rest) := by
  match mp with
  | none =>
    have e1 : mpChars none = [] := rfl
    rw [e1, List.nil_append]
    simp only [parseMMP, mpMinor, mpPatch]
    simp [hdot]
  | some (mn, none) =>
    have e1 : mpChars (some (mn, none)) = '.' :: natToChars mn := rfl
    rw [e1, List.cons_append]
    simp only [parseMMP, List.head?_cons, Option.some.injEq, if_pos rfl, List.tail_cons]
    rw [parseNum_complete mn rest hrest]
    simp [hdot, mpMinor, mpPatch]
  | some (mn, some pt) =>
    have hmid : headNotP Char.isDigit ('.' :: (natToChars pt ++ rest)) := by
      intro c hc
      simp only [List.head?_cons, Option.some.injEq] at hc
      subst hc
      decide
    have e1 : mpChars (some (mn, some pt)) ++ rest
        = '.' :: (natToChars mn ++ ('.' :: (natToChars pt ++ rest))) := by
      show ('.' :: natToChars mn ++ ('.' :: natToChars pt)) ++ rest = _
      simp [List.append_assoc]
    rw [e1]
    simp only [parseMMP, List.head?_cons, Option.some.injEq, if_pos rfl, List.tail_cons]
    rw [parseNum_complete mn _ hmid]
    simp only [List.head?_cons, Option.some.injEq, if_pos rfl, List.tail_cons]
    rw [parseNum_complete pt rest hrest]
    simp [mpMinor, mpPatch]

theorem sectTail_head_not_digit (pre bld : Option (List (List Char))) :
    headNotP Char.isDigit (sectChars '-' pre ++ sectChars '+' bld) := by
  intro c hc
  cases pre with
  | some ids =>
    simp only [sectChars, List.cons_append, List.head?_cons, Option.some.injEq] at hc
    subst hc
    decide
  | none =>
    cases bld with
    | none => exact Option.noConfusion hc
    | some ids =>
      simp only [sectChars, List.nil_append, List.head?_cons, Option.some.injEq] at hc
      subst hc
      decide

theorem sectTail_head_ne_dot (pre bld : Option (List (List Char))) :
    (sectChars '-' pre ++ sectChars '+' bld).head? ≠ some '.' := by
  cases pre with
  | some ids => simp [sectChars]
  | none =>
    cases bld with
    | none => simp [sectChars]
    | some ids => simp [sectChars]

theorem coreTail_head_not_digit (mp : Option (Nat × Option Nat))
    (pre bld : Option (List (List Char))) :
    headNotP Char.isDigit (mpChars mp ++ sectChars '-' pre ++ sectChars '+' bld) := by
  intro c hc
  match mp with
  | some (mn, none) =>
    have e1 : mpChars (some (mn, none)) = '.' :: natToChars mn := rfl
    rw [e1] at hc
    simp only [List.cons_append, List.head?_cons, Option.some.injEq] at hc
    subst hc
    decide
  | some (mn, some pt) =>
    have e1 : mpChars (some (mn, some pt)) = '.' :: natToChars mn ++ ('.' :: natToChars pt) := rfl
    rw [e1] at hc
    simp only [List.cons_append, List.head?_cons, Option.some.injEq] at hc
    subst hc
    decide
  | none =>
    have e1 : mpChars none = [] := rfl
    rw [e1, List.nil_append] at hc
    exact sectTail_head_not_digit pre bld c hc

theorem parseCore_complete (maj : Nat) (mp : Option (Nat × Option Nat))
    (pre bld : Option (List (List Char)))
    (hpre : validIdsOpt validPreId pre = true)
    (hbld : validIdsOpt validBuildId bld = true) :
    parseCore true (mkVersionChars false maj mp pre bld)
      = some ⟨maj, mpMinor mp, mpPatch mp,
          pre.map (fun ids => (⟨joinDots ids⟩ : String)),
          bld.map (fun ids => (⟨joinDots ids⟩ : String))⟩ := by
  have e1 : mkVersionChars false maj mp pre bld
      = natToChars maj ++ (mpChars mp ++ (sectChars '-' pre ++ sectChars '+' bld)) := by
    simp [mkVersionChars, List.append_assoc]
  have h1 : headNotP Char.isDigit (mpChars mp ++ (sectChars '-' pre ++ sectChars '+' bld)) := by
    intro c hc
    exact coreTail_head_not_digit mp pre bld c (by simpa [List.append_assoc] using hc)
  have h2 : mpChars mp ++ (sectChars '-' pre ++ sectChars '+' bld)
      = mpChars mp ++ (sectChars '-' pre ++ sectChars '+' bld) := rfl
  rw [e1]
  simp only [parseCore, parseNum_complete maj _ h1,
    parseMMP_complete mp _ (sectTail_head_not_digit pre bld) (sectTail_head_ne_dot pre bld),
    parsePreSection_complete pre bld hpre,
    parseBldSection_complete bld hbld]
  simp

theorem string_data_append (a b : String) : (a ++ b).data = a.data ++ b.data := rfl

theorem parse_version_complete (pfx : Bool) (maj : Nat) (mp : Option (Nat × Option Nat))
    (pre bld : Option (List (List Char)))
    (hpre : validIdsOpt validPreId pre = true)
    (hbld : validIdsOpt validBuildId bld = true) :
    parse_version ⟨mkVersionChars pfx maj mp pre bld⟩
      = some (⟨maj, mpMinor mp, mpPatch mp,
          pre.map (fun ids => (⟨joinDots ids⟩ : String)),
          bld.map (fun ids => (⟨joinDots ids⟩ : String))⟩,
          if pfx then "v" else "") := by
  cases pfx with
  | true =>
    have hdata : mkVersionChars true maj mp pre bld
        = 'v' :: mkVersionChars false maj mp pre bld := by
      simp [mkVersionChars]
    simp only [parse_version, hdata, List.head?_cons, Option.some.injEq, if_pos rfl,
      List.tail_cons, parseCore_complete maj mp pre bld hpre hbld, Option.map_some']
    simp
  | false =>
    obtain ⟨a, t, hat⟩ := List.exists_cons_of_ne_nil (natToChars_ne_nil maj)
    have ha : a.isDigit = true := natToChars_all_digit maj a (by rw [hat]; exact List.mem_cons_self _ _)
    have hhd : (mkVersionChars false maj mp pre bld).head? ≠ some 'v' := by
      rw [show mkVersionChars false maj mp pre bld
          = natToChars maj ++ (mpChars mp ++ sectChars '-' pre ++ sectChars '+' bld) by
        simp [mkVersionChars, List.append_assoc]]
      rw [hat]
      simp only [List.cons_append, List.head?_cons, ne_eq, Option.some.injEq]
      intro hv
      subst hv
      exact absurd ha (by decide)
    simp only [parse_version, if_neg hhd,
      parseCore_complete maj mp pre bld hpre hbld, Option.map_some']
    simp

theorem joinDots_string_ne_empty {valid : List Char → Bool} {ids : List (List Char)}
    (hval : ∀ i, valid i = true → i ≠ [])
    (h : validIdList valid ids = true) :
    ((⟨joinDots ids⟩ : String)).data ≠ [] := by
  obtain ⟨hne, hall⟩ := validIdList_unpack h
  show joinDots ids ≠ []
  exact joinDots_ne_nil hne (fun i hi => hval i (hall i hi).2)

theorem format_components (maj mn pt : Nat) (pre bld : Option (List (List Char)))
    (hpre : validIdsOpt validPreId pre = true)
    (hbld : validIdsOpt validBuildId bld = true) :
    formatChars ⟨maj, mn, pt,
        pre.map (fun ids => (⟨joinDots ids⟩ : String)),
        bld.map (fun ids => (⟨joinDots ids⟩ : String))⟩
      = natToChars maj ++ ('.' :: natToChars mn) ++ ('.' :: natToChars pt)
        ++ sectChars '-' pre ++ sectChars '+' bld := by
  cases pre with
  | none =>
    cases bld with
    | none => simp [formatChars, sectChars]
    | some bids =>
      have hb : ((⟨joinDots bids⟩ : String)).data ≠ [] :=
        joinDots_string_ne_empty (fun i h => validBuildId_ne_nil h) hbld
      simp [formatChars, sectChars, hb]
  | some ids =>
    have hp : ((⟨joinDots ids⟩ : String)).data ≠ [] :=
      joinDots_string_ne_empty (fun i h => validPreId_ne_nil h) hpre
    cases bld with
    | none => simp [formatChars, sectChars, hp]
    | some bids =>
      have hb : ((⟨joinDots bids⟩ : String)).data ≠ [] :=
        joinDots_string_ne_empty (fun i h => validBuildId_ne_nil h) hbld
      simp [formatChars, sectChars, hp, hb]

/-- C9: for every valid semantic version string — optionally prefixed with
a literal `v`, optionally missing the minor and/or patch components
(`mkVersionChars` ranges over exactly these strings, with valid
prerelease/build identifier lists) — parsing with `parse_version` and
formatting the result, re-attaching the returned prefix, round-trips to
the original string in normalized form: the same string with missing minor
and patch rendered as zero. -/
theorem C9_parse_format_round_trip
    (pfx : Bool) (maj : Nat) (mp : Option (Nat × Option Nat))
    (pre bld : Option (List (List Char)))
    (hpre : validIdsOpt validPreId pre = true)
    (hbld : validIdsOpt validBuildId bld = true) :
    parse_version ⟨mkVersionChars pfx maj mp pre bld⟩
      = some (⟨maj, mpMinor mp, mpPatch mp,
          pre.map (fun ids => (⟨joinDots ids⟩ : String)),
          bld.map (fun ids => (⟨joinDots ids⟩ : String))⟩,
          if pfx then "v" else "") ∧
    (if pfx then "v" else "")
        ++ VersionInfo.format ⟨maj, mpMinor mp, mpPatch mp,
            pre.map (fun ids => (⟨joinDots ids⟩ : String)),
            bld.map (fun ids => (⟨joinDots ids⟩ : String))⟩
      = ⟨mkVersionChars pfx maj (some (mpMinor mp, some (mpPatch mp))) pre bld⟩ := by
  refine ⟨parse_version_complete pfx maj mp pre bld hpre hbld, ?_⟩
  have hfmt := format_components maj (mpMinor mp) (mpPatch mp) pre bld hpre hbld
  have hdata : mkVersionChars pfx maj (some (mpMinor mp, some (mpPatch mp))) pre bld
      = (if pfx then ['v'] else [])
        ++ formatChars ⟨maj, mpMinor mp, mpPatch mp,
            pre.map (fun ids => (⟨joinDots ids⟩ : String)),
            bld.map (fun ids => (⟨joinDots ids⟩ : String))⟩ := by
    rw [hfmt]
    simp [mkVersionChars, mpChars, List.append_assoc]
  cases pfx with
  | true =>
    have e2 : mkVersionChars true maj (some (mpMinor mp, some (mpPatch mp))) pre bld
        = 'v' :: formatChars ⟨maj, mpMinor mp, mpPatch mp,
            pre.map (fun ids => (⟨joinDots ids⟩ : String)),
            bld.map (fun ids => (⟨joinDots ids⟩ : String))⟩ := by
      rw [hdata]
      simp
    rw [e2]
    rfl
  | false =>
    have e2 : mkVersionChars false maj (some (mpMinor mp, some (mpPatch mp))) pre bld
        = formatChars ⟨maj, mpMinor mp, mpPatch mp,
            pre.map (fun ids => (⟨joinDots ids⟩ : String)),
            bld.map (fun ids => (⟨joinDots ids⟩ : String))⟩ := by
      rw [hdata]
      simp
    rw [e2]
    rfl

/-- Witness for C9 at a concrete input: the string `v1.2-dev` (prefix `v`,
missing patch, prerelease `dev`) parses and round-trips to its normalized
form `v1.2.0-dev`. -/
theorem C9_parse_format_round_trip_witness :
    validIdsOpt validPreId (some [['d', 'e', 'v']]) = true ∧
    validIdsOpt validBuildId (none : Option (List (List Char))) = true ∧
    parse_version "v1.2-dev" = some (⟨1, 2, 0, some "dev", none⟩, "v") ∧
    "v" ++ VersionInfo.format ⟨1, 2, 0, some "dev", none⟩ = "v1.2.0-dev" := by
  have h := C9_parse_format_round_trip true 1 (some (2, none)) (some [['d', 'e', 'v']]) none
    (by decide) (by decide)
  exact ⟨by decide, by decide, h.1, h.2⟩

/-! ## Supporting lemmas: the apply loop -/

theorem applyStep_pre {args : Args} (git : GitState) (hpre : args.pre = true)
    (acc : ApplyAcc) (u : String × String) :
    (applyStep args git acc u).exec = acc.exec ∧
    (applyStep args git acc u).ran = acc.ran ∧
    (applyStep args git acc u).commitNeeded = acc.commitNeeded := by
  unfold applyStep
  by_cases hd : args.dry = true
  · simp [hd]
  · simp [hd, hpre]

theorem applyFold_pre {args : Args} (git : GitState) (hpre : args.pre = true) :
    ∀ (l : List (String × String)) (acc : ApplyAcc),
      (l.foldl (applyStep args git) acc).exec = acc.exec ∧
      (l.foldl (applyStep args git) acc).ran = acc.ran ∧
      (l.foldl (applyStep args git) acc).commitNeeded = acc.commitNeeded := by
  intro l
  induction l with
  | nil => intro acc; exact ⟨rfl, rfl, rfl⟩
  | cons u t ih =>
    intro acc
    simp only [List.foldl_cons]
    obtain ⟨h1, h2, h3⟩ := ih (applyStep args git acc u)
    obtain ⟨g1, g2, g3⟩ := applyStep_pre git hpre acc u
    exact ⟨h1.trans g1, h2.trans g2, h3.trans g3⟩

theorem applyStep_dry {args : Args} (git : GitState) (hdry : args.dry = true)
    (acc : ApplyAcc) (u : String × String) :
    (applyStep args git acc u).writes = acc.writes ∧
    (applyStep args git acc u).exec = acc.exec ∧
    (applyStep args git acc u).ran = acc.ran ∧
    (applyStep args git acc u).commitNeeded = acc.commitNeeded := by
  unfold applyStep
  simp [hdry]

theorem applyFold_dry {args : Args} (git : GitState) (hdry : args.dry = true) :
    ∀ (l : List (String × String)) (acc : ApplyAcc),
      (l.foldl (applyStep args git) acc).writes = acc.writes ∧
      (l.foldl (applyStep args git) acc).exec = acc.exec ∧
      (l.foldl (applyStep args git) acc).ran = acc.ran ∧
      (l.foldl (applyStep args git) acc).commitNeeded = acc.commitNeeded := by
  intro l
  induction l with
  | nil => intro acc; exact ⟨rfl, rfl, rfl, rfl⟩
  | cons u t ih =>
    intro acc
    simp only [List.foldl_cons]
    obtain ⟨h1, h2, h3, h4⟩ := ih (applyStep args git acc u)
    obtain ⟨g1, g2, g3, g4⟩ := applyStep_dry git hdry acc u
    exact ⟨h1.trans g1, h2.trans g2, h3.trans g3, h4.trans g4⟩

theorem applyPhase_pre {args : Args} (git : GitState)
    (updates : List (String × String)) (nv : VersionInfo) (tagStr : String)
    (out : List String) (exec : List (List String)) (ran : List String)
    (hpre : args.pre = true) :
    (applyPhase args git updates nv tagStr out exec ran).executed = exec ∧
    (applyPhase args git updates nv tagStr out exec ran).ranCommands = ran := by
  unfold applyPhase
  obtain ⟨h1, h2, h3⟩ := applyFold_pre git hpre updates ⟨out, [], exec, ran, false⟩
  simp only [h1, h2, h3, if_false, Bool.false_eq_true, hpre, Bool.not_true]
  exact ⟨trivial, trivial⟩

theorem applyPhase_dry {args : Args} (git : GitState)
    (updates : List (String × String)) (nv : VersionInfo) (tagStr : String)
    (out : List String) (exec : List (List String)) (ran : List String)
    (hdry : args.dry = true) :
    (applyPhase args git updates nv tagStr out exec ran).writes = [] ∧
    (applyPhase args git updates nv tagStr out exec ran).executed = exec ∧
    (applyPhase args git updates nv tagStr out exec ran).ranCommands = ran := by
  unfold applyPhase
  obtain ⟨h1, h2, h3, h4⟩ := applyFold_dry git hdry updates ⟨out, [], exec, ran, false⟩
  unfold runCmdCheckDry
  simp only [h1, h2, h3, h4, hdry, if_true, Bool.false_eq_true, if_false]
  by_cases hp : args.pre = true <;> simp [hp]

/-! ## Supporting lemmas: the confirmation prompt -/

theorem confirmPhase_abort (env : Env) (nv : VersionInfo) (tagStr : String)
    (out : List String) (exec : List (List String)) (ran : List String)
    (h : env.userInput ≠ "y") :
    (confirmPhase env nv tagStr out exec ran).writes = [] ∧
    (confirmPhase env nv tagStr out exec ran).executed = exec ∧
    (confirmPhase env nv tagStr out exec ran).ranCommands = ran ∧
    ((confirmPhase env nv tagStr out exec ran).promptShown = true →
      (confirmPhase env nv tagStr out exec ran).output.getLast?
        = some "Aborted by user request") := by
  unfold confirmPhase
  by_cases hg : (!env.args.force && (git_get_head_tags env.git).any is_version_parseable) = true
  · simp [hg]
  · simp only [hg, Bool.false_eq_true, if_false]
    simp only [if_neg h]
    refine ⟨trivial, trivial, trivial, fun _ => ?_⟩
    exact List.getLast?_concat _

theorem bumpPhase_abort (env : Env) (pfx : String) (nv : VersionInfo)
    (out0 : List String) (h : env.userInput ≠ "y") :
    (bumpPhase env pfx nv out0).writes = [] ∧
    (bumpPhase env pfx nv out0).executed.filter isMutating = [] ∧
    ((bumpPhase env pfx nv out0).promptShown = true →
      (bumpPhase env pfx nv out0).output.getLast? = some "Aborted by user request") := by
  unfold bumpPhase
  by_cases hc : is_working_directory_clean env.git = true
  · simp only [hc, Bool.not_true, Bool.false_eq_true, if_false]
    obtain ⟨w, e, r, p⟩ := confirmPhase_abort env nv
      (pfx ++ VersionInfo.format nv) _ [] [] h
    refine ⟨w, ?_, p⟩
    rw [e]
    rfl
  · simp only [Bool.not_eq_true] at hc
    simp only [hc, Bool.not_false, if_true]
    by_cases hp : env.args.pre = true
    · simp only [hp, if_true]
      obtain ⟨w, e, r, p⟩ := confirmPhase_abort env nv
        (pfx ++ VersionInfo.format nv) _ [["git", "status", "-s"]] ["git status -s"] h
      refine ⟨w, ?_, p⟩
      rw [e]
      decide
    · simp only [hp, Bool.false_eq_true, if_false]
      by_cases hf : env.args.force = true
      · simp only [hf, Bool.not_true, Bool.false_eq_true, if_false]
        obtain ⟨w, e, r, p⟩ := confirmPhase_abort env nv
          (pfx ++ VersionInfo.format nv) _ [["git", "status", "-s"]] ["git status -s"] h
        refine ⟨w, ?_, p⟩
        rw [e]
        decide
      · simp only [hf, Bool.not_false, if_true]
        refine ⟨by trivial, by decide, ?_⟩
        intro hps
        exact absurd hps (by decide)

/-- C3: at the confirmation prompt, only the exact input token `y`
proceeds; for every other input the program performs no file write and
executes no staging/commit/tag command (in any run, because confirmation
happens before any write), and whenever the prompt was actually reached it
prints `Aborted by user request` as its last line. -/
theorem C3_confirmation_gate (env : Env) (h : env.userInput ≠ "y") :
    (mainRun env).writes = [] ∧
    (mainRun env).executed.filter isMutating = [] ∧
    ((mainRun env).promptShown = true →
      (mainRun env).output.getLast? = some "Aborted by user request") := by
  unfold mainRun
  by_cases hv : env.args.version = true
  · simp only [hv, if_true]
    refine ⟨?_, ?_, ?_⟩ <;> simp
  · simp only [hv, Bool.false_eq_true, if_false]
    by_cases hk : env.args.check = true
    · simp only [hk, if_true]
      by_cases hc : is_working_directory_clean env.git = true
      · simp only [hc, Bool.not_true, Bool.false_eq_true, if_false]
        by_cases ht : git_check_tagged env.git = true
        · simp only [ht, Bool.not_true, Bool.false_eq_true, if_false]
          refine ⟨?_, ?_, ?_⟩ <;> simp
        · simp only [Bool.not_eq_true] at ht
          simp only [ht, Bool.not_false, if_true]
          refine ⟨?_, ?_, ?_⟩ <;> simp
      · simp only [Bool.not_eq_true] at hc
        simp only [hc, Bool.not_false, if_true]
        refine ⟨?_, ?_, ?_⟩ <;> simp
    · simp only [hk, Bool.false_eq_true, if_false]
      match hft : git_find_tag env.git with
      | none =>
        simp only [hft]
        refine ⟨?_, ?_, ?_⟩ <;> simp
      | some current_tag =>
        simp only [hft]
        match hpv : parse_version current_tag with
        | none =>
          simp only [hpv]
          refine ⟨?_, ?_, ?_⟩ <;> simp
        | some (pv, pfx) =>
          simp only [hpv]
          match hnb : computeNewVersion env.args pv with
          | .noBump =>
            simp only [hnb]
            refine ⟨?_, ?_, ?_⟩ <;> simp
          | .badSetVersion =>
            simp only [hnb]
            refine ⟨?_, ?_, ?_⟩ <;> simp
          | .ver nv =>
            simp only [hnb]
            exact bumpPhase_abort env pfx nv _ h

/-- Witness for C3: a concrete run whose prompt answer is `n` aborts with
the message and no mutation. -/
theorem C3_confirmation_gate_witness :
    ("n" ≠ "y") ∧
    ((mainRun ⟨⟨false, false, true, none, false, false, false, false, false⟩,
        ⟨some "v1.2.3", some "v1.2.3", true, [""], ["version.txt", "."]⟩,
        ⟨[⟨"version.txt", "."⟩], none⟩, "n", "0.1"⟩).writes = [] ∧
      (mainRun ⟨⟨false, false, true, none, false, false, false, false, false⟩,
        ⟨some "v1.2.3", some "v1.2.3", true, [""], ["version.txt", "."]⟩,
        ⟨[⟨"version.txt", "."⟩], none⟩, "n", "0.1"⟩).executed.filter isMutating = []) := by
  refine ⟨by decide, ?_⟩
  have h := C3_confirmation_gate ⟨⟨false, false, true, none, false, false, false, false, false⟩,
    ⟨some "v1.2.3", some "v1.2.3", true, [""], ["version.txt", "."]⟩,
    ⟨[⟨"version.txt", "."⟩], none⟩, "n", "0.1"⟩ (by decide)
  exact ⟨h.1, h.2.1⟩

/-- C10: whenever the `--version` flag is set the program prints
`fistbump ` followed by its own version constant and returns immediately —
no repository query is consulted, no precondition check, no write, no
command, exit 0 — regardless of every other flag. -/
theorem C10_version_flag (env : Env) (h : env.args.version = true) :
    mainRun env = ⟨["fistbump " ++ env.selfVersion], [], [], [], 0, false, false⟩ := by
  unfold mainRun
  simp [h]

/-- Witness for C10 at a concrete input with every other flag also set. -/
theorem C10_version_flag_witness :
    (⟨⟨true, true, true, some "2.0.0", true, true, true, true, true⟩,
      ⟨none, none, false, [], []⟩, ⟨[], none⟩, "y", "0.5.1"⟩ : Env).args.version = true ∧
    mainRun ⟨⟨true, true, true, some "2.0.0", true, true, true, true, true⟩,
      ⟨none, none, false, [], []⟩, ⟨[], none⟩, "y", "0.5.1"⟩
      = ⟨["fistbump 0.5.1"], [], [], [], 0, false, false⟩ := by
  refine ⟨rfl, ?_⟩
  rw [C10_version_flag _ rfl]
  rfl

/-- C1: in check mode (`--check`, without `--version` which would win
first), a clean tree whose `git describe --tags` output is an exact tag
(no `-`, hence no pre-release suffix and no commits past the tag) exits 0
with no diagnostic; a dirty tree, or a description that is not an exact
release tag, prints one diagnostic line and exits with code 2. -/
theorem C1_check_mode (env : Env) (hv : env.args.version = false)
    (hk : env.args.check = true) :
    ((is_working_directory_clean env.git = true ∧ git_check_tagged env.git = true) →
      mainRun env = ⟨[], [], [], [], 0, false, false⟩) ∧
    (is_working_directory_clean env.git = false →
      mainRun env = ⟨["Working directory is not clean, commit changes before proceeding"],
        [], [], [], 2, false, false⟩) ∧
    ((is_working_directory_clean env.git = true ∧ git_check_tagged env.git = false) →
      mainRun env = ⟨["Current version is not tagged, need to run 'fistbump' first"],
        [], [], [], 2, false, false⟩) := by
  unfold mainRun
  simp only [hv, Bool.false_eq_true, if_false, hk, if_true]
  refine ⟨?_, ?_, ?_⟩
  · rintro ⟨h1, h2⟩
    simp [h1, h2]
  · intro h1
    simp [h1]
  · rintro ⟨h1, h2⟩
    simp [h1, h2]

/-- Witness for C1: a clean repo exactly on tag `v1.2.3` passes the check
with exit 0 and no output; a dirty repo fails it with the diagnostic and
exit code 2; a clean repo whose description carries a suffix
(`v1.2.3-dev.1`) fails likewise. -/
theorem C1_check_mode_witness :
    mainRun ⟨⟨false, false, false, none, false, false, false, false, true⟩,
        ⟨some "v1.2.3", some "v1.2.3", true, ["v1.2.3"], []⟩, ⟨[], none⟩, "", "0.1"⟩
      = ⟨[], [], [], [], 0, false, false⟩ ∧
    mainRun ⟨⟨false, false, false, none, false, false, false, false, true⟩,
        ⟨some "v1.2.3", some "v1.2.3", false, ["v1.2.3"], []⟩, ⟨[], none⟩, "", "0.1"⟩
      = ⟨["Working directory is not clean, commit changes before proceeding"],
        [], [], [], 2, false, false⟩ ∧
    mainRun ⟨⟨false, false, false, none, false, false, false, false, true⟩,
        ⟨some "v1.2.3-dev.1", some "v1.2.3", true, [], []⟩, ⟨[], none⟩, "", "0.1"⟩
      = ⟨["Current version is not tagged, need to run 'fistbump' first"],
        [], [], [], 2, false, false⟩ := by
  refine ⟨?_, ?_, ?_⟩
  · exact (C1_check_mode _ rfl rfl).1 ⟨rfl, by decide⟩
  · exact (C1_check_mode _ rfl rfl).2.1 rfl
  · exact (C1_check_mode _ rfl rfl).2.2 ⟨rfl, by decide⟩

/-! ## Supporting lemmas: frame properties of whole runs -/

theorem mainRun_frame_cases (env : Env) :
    ((mainRun env).writes = [] ∧ (mainRun env).executed = []
      ∧ (mainRun env).ranCommands = []) ∨
    ∃ pfx nv out0, mainRun env = bumpPhase env pfx nv out0 := by
  unfold mainRun
  by_cases hv : env.args.version = true
  · simp only [hv, if_true]
    exact Or.inl ⟨by trivial, by trivial, by trivial⟩
  · simp only [hv, Bool.false_eq_true, if_false]
    by_cases hk : env.args.check = true
    · simp only [hk, if_true]
      by_cases hc : is_working_directory_clean env.git = true
      · simp only [hc, Bool.not_true, Bool.false_eq_true, if_false]
        by_cases ht : git_check_tagged env.git = true
        · simp only [ht, Bool.not_true, Bool.false_eq_true, if_false]
          exact Or.inl ⟨by trivial, by trivial, by trivial⟩
        · simp only [Bool.not_eq_true] at ht
          simp only [ht, Bool.not_false, if_true]
          exact Or.inl ⟨by trivial, by trivial, by trivial⟩
      · simp only [Bool.not_eq_true] at hc
        simp only [hc, Bool.not_false, if_true]
        exact Or.inl ⟨by trivial, by trivial, by trivial⟩
    · simp only [hk, Bool.false_eq_true, if_false]
      match hft : git_find_tag env.git with
      | none =>
        simp only [hft]
        exact Or.inl ⟨by trivial, by trivial, by trivial⟩
      | some current_tag =>
        simp only [hft]
        match hpv : parse_version current_tag with
        | none =>
          simp only [hpv]
          exact Or.inl ⟨by trivial, by trivial, by trivial⟩
        | some (pv, pfx) =>
          simp only [hpv]
          match hnb : computeNewVersion env.args pv with
          | .noBump =>
            simp only [hnb]
            exact Or.inl ⟨by trivial, by trivial, by trivial⟩
          | .badSetVersion =>
            simp only [hnb]
            exact Or.inl ⟨by trivial, by trivial, by trivial⟩
          | .ver nv =>
            simp only [hnb]
            exact Or.inr ⟨pfx, nv, _, rfl⟩

theorem confirmPhase_pre_executed (env : Env) (nv : VersionInfo) (tagStr : String)
    (out : List String) (exec : List (List String)) (ran : List String)
    (hpre : env.args.pre = true) :
    (confirmPhase env nv tagStr out exec ran).executed = exec ∧
    (confirmPhase env nv tagStr out exec ran).ranCommands = ran := by
  unfold confirmPhase
  by_cases hg : (!env.args.force && (git_get_head_tags env.git).any is_version_parseable) = true
  · simp [hg]
  · simp only [hg, Bool.false_eq_true, if_false]
    by_cases hy : env.userInput = "y"
    · simp only [if_pos hy]
      exact applyPhase_pre env.git _ nv tagStr _ exec ran hpre
    · simp [if_neg hy]

theorem bumpPhase_pre_frame (env : Env) (pfx : String) (nv : VersionInfo)
    (out0 : List String) (hpre : env.args.pre = true) :
    (bumpPhase env pfx nv out0).executed.filter isMutating = [] := by
  unfold bumpPhase
  by_cases hc : is_working_directory_clean env.git = true
  · simp only [hc, Bool.not_true, Bool.false_eq_true, if_false]
    rw [(confirmPhase_pre_executed env nv _ _ [] [] hpre).1]
    rfl
  · simp only [Bool.not_eq_true] at hc
    simp only [hc, Bool.not_false, if_true, hpre]
    rw [(confirmPhase_pre_executed env nv _ _
      [["git", "status", "-s"]] ["git status -s"] hpre).1]
    decide

/-- C2 helper: no run with the pre-release flag ever executes a staging,
commit, or tag command. -/
theorem mainRun_pre_no_mutation (env : Env) (hpre : env.args.pre = true) :
    (mainRun env).executed.filter isMutating = [] := by
  rcases mainRun_frame_cases env with ⟨_, he, _⟩ | ⟨pfx, nv, out0, heq⟩
  · rw [he]
    rfl
  · rw [heq]
    exact bumpPhase_pre_frame env pfx nv out0 hpre

/-- C5 as stated is false: in a run carrying the pre-release flag together
with `--minor`, the `elif` chain lets `--minor` win, so the new version is
the plain minor bump `1.3.0` and not the minor bump with the `dev`
pre-release label. -/
theorem C5_pre_release_counterexample :
    (⟨⟨true, false, false, none, false, true, false, false, false⟩,
      ⟨some "v1.2.3", some "v1.2.3", true, [""], []⟩, ⟨[], none⟩, "n", "0.1"⟩
        : Env).args.pre = true ∧
    "New version: 1.3.0" ∈ (mainRun ⟨⟨true, false, false, none, false, true, false, false, false⟩,
      ⟨some "v1.2.3", some "v1.2.3", true, [""], []⟩, ⟨[], none⟩, "n", "0.1"⟩).output ∧
    "New version: 1.3.0-dev.1" ∉ (mainRun ⟨⟨true, false, false, none, false, true, false, false, false⟩,
      ⟨some "v1.2.3", some "v1.2.3", true, [""], []⟩, ⟨[], none⟩, "n", "0.1"⟩).output := by
  decide

/-- C5 (amended): every run with the pre-release flag executes no staging,
commit, or tag command, regardless of tracked status; and when the
pre-release flag is the effective bump (no minor/major/patch/set-version
request wins the `elif` chain first), the new version is the current one
with minor bumped and the `dev.1` pre-release label appended. -/
theorem C5_pre_release_amended :
    (∀ env : Env, env.args.pre = true →
      (mainRun env).executed.filter isMutating = []) ∧
    (∀ (args : Args) (pv : VersionInfo),
      args.pre = true → args.minor = false → args.major = false → args.patch = false →
      setVersionRequested args = false →
      computeNewVersion args pv
        = .ver ⟨pv.major, pv.minor + 1, 0, some "dev.1", none⟩) := by
  constructor
  · intro env hpre
    exact mainRun_pre_no_mutation env hpre
  · intro args pv hpre hm hM hp hs
    unfold computeNewVersion
    simp only [hm, hM, hp, hs, hpre, Bool.false_eq_true, if_false, if_true]
    have e : bump_prerelease (bump_minor pv) (some "dev")
        = ⟨pv.major, pv.minor + 1, 0, some "dev.1", none⟩ := by
      unfold bump_minor bump_prerelease
      simp only [VersionInfo.mk.injEq]
      refine ⟨by trivial, by trivial, by trivial, ?_, by trivial⟩
      decide
    rw [e]

/-- Witness for C5 (amended): a pre-release run over a tracked
`version.txt`, confirmed with `y`, executes no staging/commit/tag command;
and from `1.2.3` the pre-release bump computes `1.3.0-dev.1`. -/
theorem C5_pre_release_amended_witness :
    (mainRun ⟨⟨false, false, false, none, false, true, false, false, false⟩,
      ⟨some "v1.2.3", some "v1.2.3", true, [""], ["version.txt", "."]⟩,
      ⟨[⟨"version.txt", "."⟩], none⟩, "y", "0.1"⟩).executed.filter isMutating = [] ∧
    computeNewVersion ⟨false, false, false, none, false, true, false, false, false⟩
        ⟨1, 2, 3, none, none⟩
      = .ver ⟨1, 3, 0, some "dev.1", none⟩ := by
  have h := C5_pre_release_amended
  exact ⟨h.1 _ rfl, h.2 _ _ rfl rfl rfl rfl (by decide)⟩

/-! ## Supporting lemmas: dry runs -/

theorem confirmPhase_dry (env : Env) (nv : VersionInfo) (tagStr : String)
    (out : List String) (exec : List (List String)) (ran : List String)
    (hdry : env.args.dry = true) :
    (confirmPhase env nv tagStr out exec ran).writes = [] ∧
    (confirmPhase env nv tagStr out exec ran).executed = exec := by
  unfold confirmPhase
  by_cases hg : (!env.args.force && (git_get_head_tags env.git).any is_version_parseable) = true
  · simp [hg]
  · simp only [hg, Bool.false_eq_true, if_false]
    by_cases hy : env.userInput = "y"
    · simp only [if_pos hy]
      obtain ⟨h1, h2, h3⟩ := applyPhase_dry env.git _ nv tagStr _ exec ran hdry
      exact ⟨h1, h2⟩
    · simp [if_neg hy]

theorem bumpPhase_dry_frame (env : Env) (pfx : String) (nv : VersionInfo)
    (out0 : List String) (hdry : env.args.dry = true) :
    (bumpPhase env pfx nv out0).writes = [] ∧
    (bumpPhase env pfx nv out0).executed.filter isMutating = [] := by
  unfold bumpPhase
  by_cases hc : is_working_directory_clean env.git = true
  · simp only [hc, Bool.not_true, Bool.false_eq_true, if_false]
    obtain ⟨h1, h2⟩ := confirmPhase_dry env nv _ _ [] [] hdry
    refine ⟨h1, ?_⟩
    rw [h2]
    rfl
  · simp only [Bool.not_eq_true] at hc
    simp only [hc, Bool.not_false, if_true]
    by_cases hp : env.args.pre = true
    · simp only [hp, if_true]
      obtain ⟨h1, h2⟩ := confirmPhase_dry env nv _ _
        [["git", "status", "-s"]] ["git status -s"] hdry
      refine ⟨h1, ?_⟩
      rw [h2]
      decide
    · simp only [hp, Bool.false_eq_true, if_false]
      by_cases hf : env.args.force = true
      · simp only [hf, Bool.not_true, Bool.false_eq_true, if_false]
        obtain ⟨h1, h2⟩ := confirmPhase_dry env nv _ _
          [["git", "status", "-s"]] ["git status -s"] hdry
        refine ⟨h1, ?_⟩
        rw [h2]
        decide
      · simp only [hf, Bool.not_false, if_true]
        exact ⟨by trivial, by decide⟩

theorem mainRun_dry_frame (env : Env) (hdry : env.args.dry = true) :
    (mainRun env).writes = [] ∧ (mainRun env).executed.filter isMutating = [] := by
  rcases mainRun_frame_cases env with ⟨hw, he, _⟩ | ⟨pfx, nv, out0, heq⟩
  · rw [hw, he]
    exact ⟨rfl, rfl⟩
  · rw [heq]
    exact bumpPhase_dry_frame env pfx nv out0 hdry

theorem applyStep_out_mono (args : Args) (git : GitState) (acc : ApplyAcc)
    (u : String × String) :
    ∃ ext, (applyStep args git acc u).out = acc.out ++ ext := by
  unfold applyStep
  by_cases hd : args.dry = true
  · refine ⟨["Updating " ++ u.1], ?_⟩
    simp [hd]
  · by_cases ht : (is_path_tracked_by_git git u.1 && !args.pre) = true
    · refine ⟨["Updating " ++ u.1, "git add " ++ u.1], ?_⟩
      simp [hd, ht]
    · refine ⟨["Updating " ++ u.1, "File " ++ u.1 ++ " is not tracked by git, skipping add"], ?_⟩
      simp [hd, ht]

theorem applyFold_out_mono (args : Args) (git : GitState) :
    ∀ (l : List (String × String)) (acc : ApplyAcc),
      ∃ ext, (l.foldl (applyStep args git) acc).out = acc.out ++ ext := by
  intro l
  induction l with
  | nil => intro acc; exact ⟨[], by simp⟩
  | cons u t ih =>
    intro acc
    obtain ⟨e1, h1⟩ := applyStep_out_mono args git acc u
    obtain ⟨e2, h2⟩ := ih (applyStep args git acc u)
    refine ⟨e1 ++ e2, ?_⟩
    simp only [List.foldl_cons, h2, h1, List.append_assoc]

theorem applyPhase_dry_output (args : Args) (git : GitState)
    (updates : List (String × String)) (nv : VersionInfo) (tagStr : String)
    (out : List String) (exec : List (List String)) (ran : List String)
    (hdry : args.dry = true) (hpre : args.pre = false) :
    ∃ ext, (applyPhase args git updates nv tagStr out exec ran).output
      = out ++ ext ++ ["DRY RUN: " ++ joinCmd ["git", "tag", tagStr]]
        ++ ["All done!", "Commands ran:"] ++ ran := by
  unfold applyPhase
  obtain ⟨e1, h1⟩ := applyFold_out_mono args git updates ⟨out, [], exec, ran, false⟩
  obtain ⟨hw, hx, hr, hcn⟩ := applyFold_dry git hdry updates ⟨out, [], exec, ran, false⟩
  simp only [hcn, Bool.false_eq_true, if_false, hpre, Bool.not_false, if_true]
  unfold runCmdCheckDry
  simp only [hdry, if_true]
  refine ⟨e1, ?_⟩
  simp [h1, hr, List.append_assoc]

/-- C7 as stated is false: in a dry run over a tracked `version.txt`
(confirmed with `y`), the non-dry twin of the run executes `git commit`,
but the dry run's complete output (listed here) reports only the tag
command via a `DRY RUN` line — the commit command that would run is never
reported, because staging is skipped under `--dry` and so `commit_needed`
never becomes true. -/
theorem C7_dry_run_counterexample :
    (mainRun ⟨⟨false, false, true, none, false, false, false, true, false⟩,
        ⟨some "v1.2.3", some "v1.2.3", true, [""], ["version.txt", "."]⟩,
        ⟨[⟨"version.txt", "."⟩], none⟩, "y", "0.1"⟩).output
      = ["Current version: v1.2.3", "New version: 1.2.4", "New tag: v1.2.4",
        "######### File: version.txt", "1.2.4", "",
        "Proceed with changes and tagging? [y/N] ", "Updating version.txt",
        "DRY RUN: git tag v1.2.4", "All done!", "Commands ran:"] ∧
    (mainRun ⟨⟨false, false, true, none, false, false, false, true, false⟩,
        ⟨some "v1.2.3", some "v1.2.3", true, [""], ["version.txt", "."]⟩,
        ⟨[⟨"version.txt", "."⟩], none⟩, "y", "0.1"⟩).writes = [] ∧
    (mainRun ⟨⟨false, false, true, none, false, false, false, true, false⟩,
        ⟨some "v1.2.3", some "v1.2.3", true, [""], ["version.txt", "."]⟩,
        ⟨[⟨"version.txt", "."⟩], none⟩, "y", "0.1"⟩).executed = [] ∧
    ["git", "commit", "-m", "Bump version to 1.2.4"]
      ∈ (mainRun ⟨⟨false, false, true, none, false, false, false, false, false⟩,
        ⟨some "v1.2.3", some "v1.2.3", true, [""], ["version.txt", "."]⟩,
        ⟨[⟨"version.txt", "."⟩], none⟩, "y", "0.1"⟩).executed := by
  decide

/-- C7 (amended): under the dry-run flag no file is written and no
state-mutating command (stage, commit, tag) is executed, while the old and
new version numbers, every pending file content, and the tag command that
would run are still reported; the commit command is not reported (staging
is skipped under dry-run, so the commit step is never reached). -/
theorem C7_dry_run_amended :
    (∀ env : Env, env.args.dry = true →
      (mainRun env).writes = [] ∧ (mainRun env).executed.filter isMutating = []) ∧
    (∀ (env : Env) (t : String) (pv : VersionInfo) (pfx : String) (nv : VersionInfo),
      env.args.dry = true → env.args.version = false → env.args.check = false →
      git_find_tag env.git = some t → parse_version t = some (pv, pfx) →
      computeNewVersion env.args pv = .ver nv →
      is_working_directory_clean env.git = true →
      (!env.args.force && (git_get_head_tags env.git).any is_version_parseable) = false →
      env.userInput = "y" → env.args.pre = false →
      ("Current version: " ++ pfx ++ VersionInfo.format pv) ∈ (mainRun env).output ∧
      ("New version: " ++ VersionInfo.format nv) ∈ (mainRun env).output ∧
      (∀ u ∈ collect_file_updates env.git env.fs (VersionInfo.format nv),
        ("######### File: " ++ u.1) ∈ (mainRun env).output ∧ u.2 ∈ (mainRun env).output) ∧
      ("DRY RUN: " ++ joinCmd ["git", "tag", pfx ++ VersionInfo.format nv])
        ∈ (mainRun env).output) := by
  constructor
  · intro env hdry
    exact mainRun_dry_frame env hdry
  · intro env t pv pfx nv hdry hv hk hft hpv hnb hc hg hy hp
    unfold mainRun
    simp only [hv, Bool.false_eq_true, if_false, hk, hft, hpv, hnb]
    unfold bumpPhase
    simp only [hc, Bool.not_true, Bool.false_eq_true, if_false]
    unfold confirmPhase
    simp only [hg, Bool.false_eq_true, if_false, if_pos hy]
    obtain ⟨ext, hout⟩ := applyPhase_dry_output env.args env.git _ nv
      (pfx ++ VersionInfo.format nv) _ [] [] hdry hp
    rw [hout]
    refine ⟨?_, ?_, ?_, ?_⟩
    · simp
    · simp
    · intro u hu
      constructor
      · refine List.mem_append_left _ (List.mem_append_left _ (List.mem_append_left _ ?_))
        refine List.mem_append_left _ (List.mem_append_left _ (List.mem_append_right _ ?_))
        refine List.mem_flatten.mpr ⟨["######### File: " ++ u.1, u.2, ""], ?_, ?_⟩
        · exact List.mem_map_of_mem _ hu
        · simp
      · refine List.mem_append_left _ (List.mem_append_left _ (List.mem_append_left _ ?_))
        refine List.mem_append_left _ (List.mem_append_left _ (List.mem_append_right _ ?_))
        refine List.mem_flatten.mpr ⟨["######### File: " ++ u.1, u.2, ""], ?_, ?_⟩
        · exact List.mem_map_of_mem _ hu
        · simp
    · refine List.mem_append_left _ (List.mem_append_left _ (List.mem_append_right _ ?_))
      simp

/-- Witness for C7 (amended) at a concrete dry run. -/
theorem C7_dry_run_amended_witness :
    (mainRun ⟨⟨false, false, true, none, false, false, false, true, false⟩,
        ⟨some "v1.2.3", some "v1.2.3", true, [""], ["version.txt", "."]⟩,
        ⟨[⟨"version.txt", "."⟩], none⟩, "y", "0.1"⟩).writes = [] ∧
    ("New version: 1.2.4") ∈ (mainRun ⟨⟨false, false, true, none, false, false, false, true, false⟩,
        ⟨some "v1.2.3", some "v1.2.3", true, [""], ["version.txt", "."]⟩,
        ⟨[⟨"version.txt", "."⟩], none⟩, "y", "0.1"⟩).output ∧
    ("DRY RUN: git tag v1.2.4") ∈ (mainRun ⟨⟨false, false, true, none, false, false, false, true, false⟩,
        ⟨some "v1.2.3", some "v1.2.3", true, [""], ["version.txt", "."]⟩,
        ⟨[⟨"version.txt", "."⟩], none⟩, "y", "0.1"⟩).output := by
  have h1 := C7_dry_run_amended.1 ⟨⟨false, false, true, none, false, false, false, true, false⟩,
    ⟨some "v1.2.3", some "v1.2.3", true, [""], ["version.txt", "."]⟩,
    ⟨[⟨"version.txt", "."⟩], none⟩, "y", "0.1"⟩ rfl
  have h2 := C7_dry_run_amended.2 ⟨⟨false, false, true, none, false, false, false, true, false⟩,
    ⟨some "v1.2.3", some "v1.2.3", true, [""], ["version.txt", "."]⟩,
    ⟨[⟨"version.txt", "."⟩], none⟩, "y", "0.1"⟩
    "v1.2.3" ⟨1, 2, 3, none, none⟩ "v" ⟨1, 2, 4, none, none⟩
    rfl rfl rfl rfl (by decide) (by decide) rfl (by decide) rfl rfl
  exact ⟨h1.1, h2.2.1, h2.2.2.2⟩

/-! ## Supporting lemmas: the precondition guards -/

theorem runCmdCheckDry_out_mono (args : Args) (acc : ApplyAcc) (cmd : List String) :
    ∃ e, (runCmdCheckDry args acc cmd).out = acc.out ++ e := by
  unfold runCmdCheckDry
  by_cases hd : args.dry = true
  · refine ⟨["DRY RUN: " ++ joinCmd cmd], ?_⟩
    simp [hd]
  · refine ⟨[], ?_⟩
    simp [hd]

theorem applyPhase_out_mono (args : Args) (git : GitState)
    (updates : List (String × String)) (nv : VersionInfo) (tagStr : String)
    (out : List String) (exec : List (List String)) (ran : List String) :
    ∃ ext, (applyPhase args git updates nv tagStr out exec ran).output = out ++ ext := by
  unfold applyPhase
  set acc1 := updates.foldl (applyStep args git) ⟨out, [], exec, ran, false⟩ with hacc1
  set acc2 := (if acc1.commitNeeded then
    runCmdCheckDry args acc1 ["git", "commit", "-m", "Bump version to " ++ VersionInfo.format nv]
    else acc1) with hacc2
  set acc3 := (if !args.pre then runCmdCheckDry args acc2 ["git", "tag", tagStr]
    else { acc2 with out := acc2.out ++ ["Pre-release version, not tagging"] }) with hacc3
  have h1 : ∃ e, acc1.out = out ++ e := by
    rw [hacc1]
    exact applyFold_out_mono args git updates ⟨out, [], exec, ran, false⟩
  obtain ⟨e1, h1⟩ := h1
  have h2 : ∃ e, acc2.out = acc1.out ++ e := by
    rw [hacc2]
    by_cases hcn : acc1.commitNeeded = true
    · simp only [hcn, if_true]
      exact runCmdCheckDry_out_mono args acc1 _
    · simp only [hcn, Bool.false_eq_true, if_false]
      exact ⟨[], by simp⟩
  obtain ⟨e2, h2⟩ := h2
  have h3 : ∃ e, acc3.out = acc2.out ++ e := by
    rw [hacc3]
    by_cases hp : args.pre = true
    · refine ⟨["Pre-release version, not tagging"], ?_⟩
      simp [hp]
    · simp only [Bool.not_eq_true] at hp
      simp only [hp, Bool.not_false, if_true]
      exact runCmdCheckDry_out_mono args acc2 _
  obtain ⟨e3, h3⟩ := h3
  refine ⟨e1 ++ (e2 ++ (e3 ++ (["All done!", "Commands ran:"] ++ acc3.ran))), ?_⟩
  show acc3.out ++ ["All done!", "Commands ran:"] ++ acc3.ran = _
  rw [h3, h2, h1]
  simp only [List.append_assoc]

theorem append3_mono {α : Type} (a b c d : List α) :
    ∃ e, ((a ++ b) ++ c) ++ d = a ++ e :=
  ⟨b ++ (c ++ d), by simp [List.append_assoc]⟩

theorem confirmPhase_out_mono (env : Env) (nv : VersionInfo) (tagStr : String)
    (out : List String) (exec : List (List String)) (ran : List String) :
    ∃ ext, (confirmPhase env nv tagStr out exec ran).output = out ++ ext := by
  unfold confirmPhase
  by_cases hg : (!env.args.force && (git_get_head_tags env.git).any is_version_parseable) = true
  · simp only [hg, if_true]
    exact ⟨_, rfl⟩
  · simp only [hg, Bool.false_eq_true, if_false]
    by_cases hy : env.userInput = "y"
    · simp only [if_pos hy]
      obtain ⟨e, he⟩ := applyPhase_out_mono env.args env.git _ nv tagStr _ exec ran
      rw [he]
      exact append3_mono _ _ _ _
    · simp only [if_neg hy]
      exact append3_mono _ _ _ _

theorem confirmPhase_proceeds (env : Env) (nv : VersionInfo) (tagStr : String)
    (out : List String) (exec : List (List String)) (ran : List String) :
    (confirmPhase env nv tagStr out exec ran).promptShown = true ∨
    (confirmPhase env nv tagStr out exec ran).output.getLast?
      = some ("Current HEAD is tagged with a version tag(s). Refusing to proceed without --force: "
        ++ String.intercalate "," (git_get_head_tags env.git)) := by
  unfold confirmPhase
  by_cases hg : (!env.args.force && (git_get_head_tags env.git).any is_version_parseable) = true
  · simp only [hg, if_true]
    exact Or.inr (List.getLast?_concat _)
  · simp only [hg, Bool.false_eq_true, if_false]
    by_cases hy : env.userInput = "y"
    · simp only [if_pos hy]
      left
      simp [applyPhase]
    · simp only [if_neg hy]
      left
      trivial

/-- C2: the precondition guards of every bump run.  (a) On a dirty tree
without `--pre` and without `--force` the run aborts with no write and
only the read-only `git status -s` executed, before the prompt.  (b) On a
dirty tree with `--pre` the run prints the warning and proceeds past the
dirty guard (it reaches the confirmation prompt unless the head-tag guard
stops it).  (c) Whenever a tag pointing at HEAD parses as a version and
`--force` is unset, the run aborts before the prompt with no write and no
mutating command — `--pre` is not an exception.  (d) With `--force` both
guards let the run through to the confirmation prompt. -/
theorem C2_precondition_guards (env : Env) (t : String) (pv : VersionInfo)
    (pfx : String) (nv : VersionInfo)
    (hv : env.args.version = false) (hk : env.args.check = false)
    (hft : git_find_tag env.git = some t) (hpv : parse_version t = some (pv, pfx))
    (hnb : computeNewVersion env.args pv = .ver nv) :
    (is_working_directory_clean env.git = false → env.args.pre = false →
      env.args.force = false →
      (mainRun env).writes = [] ∧
      (mainRun env).executed = [["git", "status", "-s"]] ∧
      (mainRun env).promptShown = false ∧
      (mainRun env).output.getLast?
        = some "Working directory is not clean, commit changes before proceeding or use the --force") ∧
    (is_working_directory_clean env.git = false → env.args.pre = true →
      ("Working directory is not clean, but proceeding because of --pre") ∈ (mainRun env).output ∧
      ((mainRun env).promptShown = true ∨
        (mainRun env).output.getLast?
          = some ("Current HEAD is tagged with a version tag(s). Refusing to proceed without --force: "
            ++ String.intercalate "," (git_get_head_tags env.git)))) ∧
    ((is_working_directory_clean env.git = true ∨ env.args.pre = true
        ∨ env.args.force = true) →
      env.args.force = false →
      (git_get_head_tags env.git).any is_version_parseable = true →
      (mainRun env).writes = [] ∧
      (mainRun env).executed.filter isMutating = [] ∧
      (mainRun env).promptShown = false ∧
      (mainRun env).output.getLast?
        = some ("Current HEAD is tagged with a version tag(s). Refusing to proceed without --force: "
          ++ String.intercalate "," (git_get_head_tags env.git))) ∧
    (env.args.force = true → (mainRun env).promptShown = true) := by
  have hforce : ∀ (nv' : VersionInfo) (tagStr : String) (out : List String)
      (exec : List (List String)) (ran : List String), env.args.force = true →
      (confirmPhase env nv' tagStr out exec ran).promptShown = true := by
    intro nv' tagStr out exec ran hf
    unfold confirmPhase
    have hg : (!env.args.force && (git_get_head_tags env.git).any is_version_parseable)
        = false := by
      rw [hf]
      rfl
    simp only [hg, Bool.false_eq_true, if_false]
    by_cases hy : env.userInput = "y"
    · simp only [if_pos hy]
      simp [applyPhase]
    · simp only [if_neg hy]
  unfold mainRun
  simp only [hv, Bool.false_eq_true, if_false, hk, hft, hpv, hnb]
  unfold bumpPhase
  refine ⟨?_, ?_, ?_, ?_⟩
  · intro hc hp hf
    simp only [hc, Bool.not_false, if_true, hp, Bool.false_eq_true, if_false, hf,
      Bool.not_false]
    exact ⟨by trivial, by trivial, by trivial, List.getLast?_concat _⟩
  · intro hc hp
    simp only [hc, Bool.not_false, if_true, hp]
    constructor
    · obtain ⟨ext, he⟩ := confirmPhase_out_mono env nv (pfx ++ VersionInfo.format nv) _
        [["git", "status", "-s"]] ["git status -s"]
      rw [he]
      refine List.mem_append_left _ ?_
      simp
    · exact confirmPhase_proceeds env nv _ _ _ _
  · intro hd hf hany
    have hguard : (!env.args.force && (git_get_head_tags env.git).any is_version_parseable)
        = true := by
      rw [hf, hany]
      rfl
    rcases hd with hc | hp | hfo
    · simp only [hc, Bool.not_true, Bool.false_eq_true, if_false]
      unfold confirmPhase
      simp only [hguard, if_true]
      exact ⟨by trivial, by trivial, by trivial, List.getLast?_concat _⟩
    · by_cases hc : is_working_directory_clean env.git = true
      · simp only [hc, Bool.not_true, Bool.false_eq_true, if_false]
        unfold confirmPhase
        simp only [hguard, if_true]
        exact ⟨by trivial, by trivial, by trivial, List.getLast?_concat _⟩
      · simp only [Bool.not_eq_true] at hc
        simp only [hc, Bool.not_false, if_true, hp, if_true]
        unfold confirmPhase
        simp only [hguard, if_true]
        refine ⟨by trivial, by decide, by trivial, List.getLast?_concat _⟩
    · exact absurd hfo (by rw [hf]; exact Bool.false_ne_true)
  · intro hf
    by_cases hc : is_working_directory_clean env.git = true
    · simp only [hc, Bool.not_true, Bool.false_eq_true, if_false]
      exact hforce nv _ _ [] [] hf
    · simp only [Bool.not_eq_true] at hc
      simp only [hc, Bool.not_false, if_true]
      by_cases hp : env.args.pre = true
      · simp only [hp, if_true]
        exact hforce nv _ _ _ _ hf
      · simp only [hp, Bool.false_eq_true, if_false, hf, Bool.not_true, if_false]
        exact hforce nv _ _ _ _ hf

/-- Witness for C2: a dirty tree without `--pre`/`--force` aborts with the
diagnostic as last line, nothing written, and only `git status -s`
executed. -/
theorem C2_precondition_guards_witness :
    (mainRun ⟨⟨false, false, true, none, false, false, false, false, false⟩,
        ⟨some "v1.2.3", some "v1.2.3", false, [""], []⟩, ⟨[], none⟩, "y", "0.1"⟩).writes = [] ∧
    (mainRun ⟨⟨false, false, true, none, false, false, false, false, false⟩,
        ⟨some "v1.2.3", some "v1.2.3", false, [""], []⟩, ⟨[], none⟩, "y", "0.1"⟩).executed
      = [["git", "status", "-s"]] ∧
    (mainRun ⟨⟨false, false, true, none, false, false, false, false, false⟩,
        ⟨some "v1.2.3", some "v1.2.3", false, [""], []⟩, ⟨[], none⟩, "y", "0.1"⟩).output.getLast?
      = some "Working directory is not clean, commit changes before proceeding or use the --force" := by
  have h := C2_precondition_guards ⟨⟨false, false, true, none, false, false, false, false, false⟩,
    ⟨some "v1.2.3", some "v1.2.3", false, [""], []⟩, ⟨[], none⟩, "y", "0.1"⟩
    "v1.2.3" ⟨1, 2, 3, none, none⟩ "v" ⟨1, 2, 4, none, none⟩
    rfl rfl rfl (by decide) (by decide)
  obtain ⟨ha, _, _⟩ := h
  have hc := ha rfl rfl rfl
  exact ⟨hc.1, hc.2.1, hc.2.2.2⟩

/-- C4 as stated is false: with `--minor` and `--major` both set (not
exactly one bump request), the run is not a no-op — the `elif` chain picks
`--minor` and computes `1.3.0`. -/
theorem C4_exactly_one_counterexample :
    ((⟨⟨true, true, false, none, false, false, false, false, false⟩,
        ⟨some "1.2.3", some "1.2.3", true, [""], []⟩, ⟨[], none⟩, "n", "0.1"⟩
        : Env).args.minor = true ∧
      (⟨⟨true, true, false, none, false, false, false, false, false⟩,
        ⟨some "1.2.3", some "1.2.3", true, [""], []⟩, ⟨[], none⟩, "n", "0.1"⟩
        : Env).args.major = true) ∧
    "New version: 1.3.0" ∈ (mainRun ⟨⟨true, true, false, none, false, false, false, false, false⟩,
      ⟨some "1.2.3", some "1.2.3", true, [""], []⟩, ⟨[], none⟩, "n", "0.1"⟩).output ∧
    "No version bump requested, consider --major, --minor, --patch, --set-version or --pre"
      ∉ (mainRun ⟨⟨true, true, false, none, false, false, false, false, false⟩,
      ⟨some "1.2.3", some "1.2.3", true, [""], []⟩, ⟨[], none⟩, "n", "0.1"⟩).output := by
  decide

/-- C4 (amended): at least one bump request is needed for a version change
to be computed; when none is given the run prints the informational
message, performs no mutation, and exits normally; when several are given,
the first of minor, major, patch, set-version, pre (in that fixed priority
order) takes effect. -/
theorem C4_bump_selection_amended :
    (∀ (env : Env) (t : String) (pv : VersionInfo) (pfx : String),
      env.args.version = false → env.args.check = false →
      git_find_tag env.git = some t → parse_version t = some (pv, pfx) →
      env.args.minor = false → env.args.major = false → env.args.patch = false →
      setVersionRequested env.args = false → env.args.pre = false →
      mainRun env = ⟨["Current version: " ++ pfx ++ VersionInfo.format pv,
        "No version bump requested, consider --major, --minor, --patch, --set-version or --pre"],
        [], [], [], 0, false, false⟩) ∧
    (∀ (args : Args) (pv : VersionInfo),
      (args.minor = true → computeNewVersion args pv = .ver (bump_minor pv)) ∧
      (args.minor = false → args.major = true →
        computeNewVersion args pv = .ver (bump_major pv)) ∧
      (args.minor = false → args.major = false → args.patch = true →
        computeNewVersion args pv = .ver (bump_patch pv)) ∧
      (args.minor = false → args.major = false → args.patch = false →
        setVersionRequested args = true →
        computeNewVersion args pv
          = (match versionInfoParseStrict (args.set_version.getD "") with
             | some v => BumpOutcome.ver v
             | none => BumpOutcome.badSetVersion)) ∧
      (args.minor = false → args.major = false → args.patch = false →
        setVersionRequested args = false → args.pre = true →
        computeNewVersion args pv = .ver (bump_prerelease (bump_minor pv) (some "dev")))) := by
  constructor
  · intro env t pv pfx hv hk hft hpv hm hM hp hs hpre
    have hnb : computeNewVersion env.args pv = .noBump := by
      unfold computeNewVersion
      simp [hm, hM, hp, hs, hpre]
    unfold mainRun
    simp only [hv, Bool.false_eq_true, if_false, hk, hft, hpv, hnb]
    rfl
  · intro args pv
    refine ⟨?_, ?_, ?_, ?_, ?_⟩
    · intro hm
      unfold computeNewVersion
      simp [hm]
    · intro hm hM
      unfold computeNewVersion
      simp [hm, hM]
    · intro hm hM hp
      unfold computeNewVersion
      simp [hm, hM, hp]
    · intro hm hM hp hs
      unfold computeNewVersion
      simp [hm, hM, hp, hs]
    · intro hm hM hp hs hpre
      unfold computeNewVersion
      simp [hm, hM, hp, hs, hpre]

/-- Witness for C4 (amended): a run with no bump flag is the exact no-op;
with `--minor` set, the minor bump is computed. -/
theorem C4_bump_selection_amended_witness :
    mainRun ⟨⟨false, false, false, none, false, false, false, false, false⟩,
        ⟨some "v1.2.3", some "v1.2.3", true, [""], []⟩, ⟨[], none⟩, "", "0.1"⟩
      = ⟨["Current version: v1.2.3",
          "No version bump requested, consider --major, --minor, --patch, --set-version or --pre"],
        [], [], [], 0, false, false⟩ ∧
    computeNewVersion ⟨true, false, false, none, false, false, false, false, false⟩
        ⟨1, 2, 3, none, none⟩
      = .ver (bump_minor ⟨1, 2, 3, none, none⟩) := by
  constructor
  · have h := C4_bump_selection_amended.1
      ⟨⟨false, false, false, none, false, false, false, false, false⟩,
        ⟨some "v1.2.3", some "v1.2.3", true, [""], []⟩, ⟨[], none⟩, "", "0.1"⟩
      "v1.2.3" ⟨1, 2, 3, none, none⟩ "v" rfl rfl rfl (by decide) rfl rfl rfl (by decide) rfl
    exact h
  · exact (C4_bump_selection_amended.2 _ _).1 rfl

/-- C6: the computed file-update set contains exactly (a) every globbed
`version.txt` whose parent directory is git-tracked, mapped to exactly the
new version string as its entire content, and (b) the root
`pyproject.toml`, when it exists, with the `version = "..."` pattern
rewritten (`rewrite_pyproject` is the fixed pattern: literal key, optional
whitespace, `=`, a double-quoted string starting with a digit), omitted
when that rewrite leaves the content unchanged — and nothing else. -/
theorem C6_file_update_set (git : GitState) (fs : FileSystem) (nv : String)
    (p c : String) :
    (p, c) ∈ collect_file_updates git fs nv ↔
      ((∃ f ∈ fs.versionTxtFiles, git.trackedPaths.contains f.parent = true ∧
          p = f.path ∧ c = nv) ∨
        (∃ cont, fs.pyproject = some cont ∧ p = "pyproject.toml" ∧
          c = rewrite_pyproject cont nv ∧ rewrite_pyproject cont nv ≠ cont)) := by
  unfold collect_file_updates
  rw [List.mem_append]
  constructor
  · intro h
    rcases h with h | h
    · left
      rw [List.mem_map] at h
      obtain ⟨f, hf, heq⟩ := h
      rw [List.mem_filter] at hf
      rw [Prod.ext_iff] at heq
      exact ⟨f, hf.1, hf.2, heq.1.symm, heq.2.symm⟩
    · right
      cases hfp : fs.pyproject with
      | none =>
        simp only [hfp] at h
        exact absurd h (List.not_mem_nil _)
      | some cont =>
        simp only [hfp] at h
        by_cases hne : rewrite_pyproject cont nv ≠ cont
        · rw [if_pos hne] at h
          rw [List.mem_singleton, Prod.ext_iff] at h
          exact ⟨cont, rfl, h.1, h.2, hne⟩
        · rw [if_neg hne] at h
          exact absurd h (List.not_mem_nil _)
  · intro h
    rcases h with ⟨f, hf, htr, hp, hc⟩ | ⟨cont, hfp, hp, hc, hne⟩
    · left
      rw [List.mem_map]
      refine ⟨f, List.mem_filter.mpr ⟨hf, htr⟩, ?_⟩
      rw [hp, hc]
    · right
      simp only [hfp]
      rw [if_pos hne, List.mem_singleton, Prod.ext_iff]
      exact ⟨hp, hc⟩

/-- C8 is a code bug: the source's own comment at `run_command` says
commands that run even in dry runs (the non-mutating ones) are not logged,
but the guard `if not check_dry` is inverted — it logs exactly those and
never logs the mutating commit/tag.  In the run below (clean tree, tracked
`version.txt`, `--patch`, confirmed `y`, not dry) the executed mutating
commands are add, commit, and tag, yet the final report lists only
`git add version.txt`; in the dirty `--force` variant the report even
includes the read-only `git status -s`. -/
theorem C8_command_report_bug :
    (mainRun ⟨⟨false, false, true, none, false, false, false, false, false⟩,
        ⟨some "v1.2.3", some "v1.2.3", true, [""], ["version.txt", "."]⟩,
        ⟨[⟨"version.txt", "."⟩], none⟩, "y", "0.1"⟩).executed
      = [["git", "add", "version.txt"],
        ["git", "commit", "-m", "Bump version to 1.2.4"],
        ["git", "tag", "v1.2.4"]] ∧
    ((mainRun ⟨⟨false, false, true, none, false, false, false, false, false⟩,
        ⟨some "v1.2.3", some "v1.2.3", true, [""], ["version.txt", "."]⟩,
        ⟨[⟨"version.txt", "."⟩], none⟩, "y", "0.1"⟩).executed.filter isMutating
      = (mainRun ⟨⟨false, false, true, none, false, false, false, false, false⟩,
        ⟨some "v1.2.3", some "v1.2.3", true, [""], ["version.txt", "."]⟩,
        ⟨[⟨"version.txt", "."⟩], none⟩, "y", "0.1"⟩).executed) ∧
    (mainRun ⟨⟨false, false, true, none, false, false, false, false, false⟩,
        ⟨some "v1.2.3", some "v1.2.3", true, [""], ["version.txt", "."]⟩,
        ⟨[⟨"version.txt", "."⟩], none⟩, "y", "0.1"⟩).ranCommands
      = ["git add version.txt"] ∧
    (mainRun ⟨⟨false, false, true, none, false, false, false, false, false⟩,
        ⟨some "v1.2.3", some "v1.2.3", true, [""], ["version.txt", "."]⟩,
        ⟨[⟨"version.txt", "."⟩], none⟩, "y", "0.1"⟩).ranCommands
      ≠ ((mainRun ⟨⟨false, false, true, none, false, false, false, false, false⟩,
        ⟨some "v1.2.3", some "v1.2.3", true, [""], ["version.txt", "."]⟩,
        ⟨[⟨"version.txt", "."⟩], none⟩, "y", "0.1"⟩).executed.filter isMutating).map joinCmd ∧
    (mainRun ⟨⟨false, false, true, none, false, false, true, false, false⟩,
        ⟨some "v1.2.3", some "v1.2.3", false, [""], ["version.txt", "."]⟩,
        ⟨[⟨"version.txt", "."⟩], none⟩, "y", "0.1"⟩).ranCommands
      = ["git status -s", "git add version.txt"] ∧
    isMutating ["git", "status", "-s"] = false := by
  decide

end Fistbump
